import Mathlib

namespace IntelSleuth

/-!
Shallow embedding of the IntelSleuth OSINT pipeline
(`src/app/handlers/input_handler.py`, `src/app/parsers/result_parser.py`,
`src/app/scrapers/api_sources.py`, `src/app/scrapers/whois_lookup.py`,
`src/app/routes.py`).  Python strings are modelled as `List Char` inside the
model, with `String` wrappers at the API boundary.  Machine-level details the
claims do not touch (network I/O, the HTML templates) are abstracted behind
explicit parameters.
-/

/-! ## Python string primitives -/

/-- Whitespace characters removed by Python's `str.strip()` / matched by
the regex class `\s` (ASCII part: space, tab, newline, carriage return,
vertical tab, form feed). -/
def pyWs (c : Char) : Bool :=
  c = ' ' || c = '\t' || c = '\n' || c = '\r' || c = '\x0b' || c = '\x0c'

/-- `str.strip()` on a character list: drop whitespace from both ends. -/
def pyStripL (l : List Char) : List Char :=
  ((l.dropWhile pyWs).reverse.dropWhile pyWs).reverse

/-- `str.strip()` at the `String` boundary. -/
def pyStrip (s : String) : String := (pyStripL s.toList).asString

/-- Python `s.split(sep)` for a one-character separator: splits on every
occurrence, keeping empty fields (`"a..b".split(".") == ["a","","b"]`,
`"".split(".") == [""]`). -/
def splitCh (c : Char) : List Char → List (List Char)
  | [] => [[]]
  | x :: xs =>
    if x = c then [] :: splitCh c xs
    else
      match splitCh c xs with
      | g :: gs => (x :: g) :: gs
      | [] => [[x]]

/-- Python `s.split()` (no argument): split on whitespace runs, dropping
empty fields.  `acc` is the reversed current word. -/
def pySplitWsAux (acc : List Char) : List Char → List (List Char)
  | [] => if acc.isEmpty then [] else [acc.reverse]
  | c :: cs =>
    if pyWs c then
      if acc.isEmpty then pySplitWsAux [] cs
      else acc.reverse :: pySplitWsAux [] cs
    else pySplitWsAux (c :: acc) cs

/-- Python `s.split()` (no argument). -/
def pySplitWs (l : List Char) : List (List Char) := pySplitWsAux [] l

/-- ASCII range `[A-Z]` (regex classes in the source are ASCII-only). -/
def isUpperA (c : Char) : Bool := 65 ≤ c.toNat && c.toNat ≤ 90

/-- ASCII range `[a-z]`. -/
def isLowerA (c : Char) : Bool := 97 ≤ c.toNat && c.toNat ≤ 122

/-- ASCII range `[0-9]`. -/
def isDigitA (c : Char) : Bool := 48 ≤ c.toNat && c.toNat ≤ 57

/-- ASCII range `[a-zA-Z]`. -/
def isAlphaA (c : Char) : Bool := isUpperA c || isLowerA c

/-- ASCII range `[a-zA-Z0-9]`. -/
def isAlnumA (c : Char) : Bool := isAlphaA c || isDigitA c

/-- Decimal value of a digit string, as Python's `int(...)` computes it on a
string of ASCII digits. -/
def digitsToNat (g : List Char) : Nat := g.foldl (fun n c => 10 * n + (c.toNat - 48)) 0

/-! ## Classifier (`InputHandler.validate_and_identify`, input_handler.py) -/

/-- Character class `[a-zA-Z0-9._%+-]` of the email regex's local part. -/
def emailLocalChar (c : Char) : Bool :=
  isAlnumA c || c = '.' || c = '_' || c = '%' || c = '+' || c = '-'

/-- Character class `[a-zA-Z0-9.-]` of the email regex's domain part. -/
def emailDomChar (c : Char) : Bool := isAlnumA c || c = '.' || c = '-'

/-- Match of the domain part of the email regex, `[a-zA-Z0-9.-]+\.[a-zA-Z]{2,}`
anchored at the end: every character is in the class, the string ends in at
least two letters, the character before that letter suffix is a dot, and at
least one character precedes that dot.  (Letters cannot contain a dot, so
the letter suffix used by any successful regex decomposition is a suffix of
the maximal letter suffix, and the mandatory dot pins it to be exactly the
maximal one.) -/
def emailDomainPart (d : List Char) : Bool :=
  d.all emailDomChar &&
    (let r := d.reverse
     let tld := r.takeWhile isAlphaA
     let rest := r.dropWhile isAlphaA
     2 ≤ tld.length &&
       match rest with
       | '.' :: p => !p.isEmpty
       | _ => false)

/-- Full match of `^[a-zA-Z0-9._%+-]+@[a-zA-Z0-9.-]+\.[a-zA-Z]{2,}$`
(the email check of `validate_and_identify`).  Neither side of the regex can
contain `@`, so a match has exactly one `@` and `split('@')` returns the two
sides. -/
def emailMatch (l : List Char) : Bool :=
  match splitCh '@' l with
  | [u, d] => !u.isEmpty && u.all emailLocalChar && emailDomainPart d
  | _ => false

/-- Character class `[a-zA-Z0-9-_]` of the interior of a label in the
`validators.domain` regex. -/
def hostChar (c : Char) : Bool := isAlnumA c || c = '-' || c = '_'

/-- Modelled from the spec: one pre-TLD label of the registrable-domain
pattern (the external `validators` library, not under src/):
`[a-zA-Z0-9](?:[a-zA-Z0-9-_]{0,61}[a-zA-Z0-9])?` — either a single
alphanumeric character, or an alphanumeric first and last character with at
most 61 interior characters from `[a-zA-Z0-9-_]`. -/
def labelOk (lab : List Char) : Bool :=
  match lab with
  | [] => false
  | c :: rest =>
    match rest.reverse with
    | [] => isAlnumA c
    | lst :: midRev => isAlnumA c && isAlnumA lst && midRev.all hostChar && midRev.length ≤ 61

/-- Modelled from the spec: the final (TLD) label of the registrable-domain
pattern: `[a-zA-Z0-9][a-zA-Z0-9-_]{0,61}[a-zA-Z]` — length at least two,
alphanumeric first character, letter last character. -/
def tldOk (lab : List Char) : Bool :=
  match lab with
  | [] => false
  | c :: rest =>
    match rest.reverse with
    | [] => false
    | lst :: midRev => isAlnumA c && isAlphaA lst && midRev.all hostChar && midRev.length ≤ 61

/-- Modelled from the spec: the registrable-domain pattern used by the
classifier's domain check (`validators.domain(query)` in the source;
the library is an external dependency, so its regex
`^(?:[a-zA-Z0-9](?:[a-zA-Z0-9-_]{0,61}[a-zA-Z0-9])?\.)+[a-zA-Z0-9][a-zA-Z0-9-_]{0,61}[a-zA-Z]$`
is reproduced here): one or more dot-terminated labels followed by a TLD
label that ends in a letter.  Labels cannot contain dots, so the split on
`.` is the unique regex decomposition. -/
def domainMatch (l : List Char) : Bool :=
  match (splitCh '.' l).reverse with
  | tld :: initRev => tldOk tld && !initRev.isEmpty && initRev.all labelOk
  | [] => false

/-- Modelled from the spec: valid dotted-quad IPv4 literal
(`validators.ipv4(query)` in the source; the library checks
`value.split('.')` has four all-digit groups each with value below 256). -/
def ipv4Match (l : List Char) : Bool :=
  let gs := splitCh '.' l
  gs.length = 4 && gs.all fun g => !g.isEmpty && g.all isDigitA && digitsToNat g < 256

/-- Hexadecimal digit (for IPv6 groups). -/
def hexChar (c : Char) : Bool :=
  isDigitA c || (97 ≤ c.toNat && c.toNat ≤ 102) || (65 ≤ c.toNat && c.toNat ≤ 70)

/-- One non-empty IPv6 group: one to four hexadecimal digits. -/
def hexGroupOk (g : List Char) : Bool := !g.isEmpty && g.length ≤ 4 && g.all hexChar

/-- Acceptance of a colon-split group list as an IPv6 literal: eight
non-empty hex groups, or a single `::` compression at the start, middle, or
end (at most seven explicit groups), or the bare literal `::`. -/
def ipv6Groups (gs : List (List Char)) : Bool :=
  let ne := gs.filter fun g => !g.isEmpty
  ne.all hexGroupOk &&
    (if gs.all (fun g => !g.isEmpty) then gs.length == 8
     else
       ne.length ≤ 7 &&
         (gs == [[], [], []] ||
          (match gs with
           | [] :: [] :: rest => !rest.isEmpty && rest.all fun g => !g.isEmpty
           | _ => false) ||
          (match gs.reverse with
           | [] :: [] :: restRev => !restRev.isEmpty && restRev.all fun g => !g.isEmpty
           | _ => false) ||
          ((gs.countP fun g => g.isEmpty) == 1 &&
            (match gs with
             | g₀ :: _ => !g₀.isEmpty
             | [] => false) &&
            (match gs.reverse with
             | gₙ :: _ => !gₙ.isEmpty
             | [] => false))))

/-- Modelled from the spec: valid colon-grouped IPv6 literal
(`validators.ipv6(query)` in the source; the library is an external
dependency).  At least one colon (two groups), with the groups accepted by
`ipv6Groups`. -/
def ipv6Match (l : List Char) : Bool :=
  match splitCh ':' l with
  | g₁ :: g₂ :: rest => ipv6Groups (g₁ :: g₂ :: rest)
  | _ => false

/-- Character class `[0-9\s\-\(\)]` of the phone regex. -/
def phoneChar (c : Char) : Bool := isDigitA c || pyWs c || c = '-' || c = '(' || c = ')'

/-- Full match of `^\+?[0-9\s\-\(\)]{7,20}$` (the phone check): an optional
leading `+` (the class cannot match `+`, so the option is forced), then 7 to
20 characters from the class. -/
def phoneMatch (l : List Char) : Bool :=
  let body := match l with
    | '+' :: rest => rest
    | _ => l
  7 ≤ body.length && body.length ≤ 20 && body.all phoneChar

/-- Phone normalization `re.sub(r'[^0-9+]', '', query)`: keep only digits
and `+`. -/
def normalizePhone (l : List Char) : List Char := l.filter fun c => isDigitA c || c = '+'

/-- Full match of `^[a-zA-Z0-9_\.]{3,30}$` (the username check). -/
def usernameMatch (l : List Char) : Bool :=
  3 ≤ l.length && l.length ≤ 30 && l.all fun c => isAlnumA c || c = '_' || c = '.'

/-- The semantic types of `InputType` (input_handler.py). -/
inductive InputType where
  | name | email | phone | username | domain | ip | unknown
deriving DecidableEq, Repr

/-- Result triple of the classifier: validity flag, semantic type, extracted
fields (a Python dict of strings). -/
abbrev ClassifyResult := Bool × InputType × List (String × String)

/-- The classifier's test chain on the already-trimmed input, in the
source's order: email pattern, `validators.domain`, `validators.ipv4`/`ipv6`,
phone pattern, username pattern, and the free-text fallback guarded by
`len(query.split()) >= 1`. -/
def classifyCore (l : List Char) : ClassifyResult :=
  if emailMatch l then
    match splitCh '@' l with
    | [u, d] =>
      (true, .email,
        [("email", l.asString), ("username", u.asString), ("domain", d.asString)])
    | _ => (false, .unknown, [])
  else if domainMatch l then (true, .domain, [("domain", l.asString)])
  else if ipv4Match l || ipv6Match l then (true, .ip, [("ip", l.asString)])
  else if phoneMatch l then (true, .phone, [("phone", (normalizePhone l).asString)])
  else if usernameMatch l then (true, .username, [("username", l.asString)])
  else if 1 ≤ (pySplitWs l).length then (true, .name, [("name", l.asString)])
  else (false, .unknown, [])

/-- `InputHandler.validate_and_identify` (input_handler.py, lines 24-79):
empty-input guard, strip, then the test chain. -/
def validate_and_identify (query : String) : ClassifyResult :=
  if query = "" then (false, .unknown, [])
  else classifyCore (pyStripL query.toList)

/-- Modelled from the spec: §4.1's precedence listing for the classifier —
"email pattern → IP address (v4/v6) → registrable-domain pattern →
phone-number pattern → username pattern → fallback: treat as a free-text
name/search term if non-empty, else invalid", each tested against the
trimmed input with the first match winning. -/
def classifySpecCore (l : List Char) : ClassifyResult :=
  if emailMatch l then
    match splitCh '@' l with
    | [u, d] =>
      (true, .email,
        [("email", l.asString), ("username", u.asString), ("domain", d.asString)])
    | _ => (false, .unknown, [])
  else if ipv4Match l || ipv6Match l then (true, .ip, [("ip", l.asString)])
  else if domainMatch l then (true, .domain, [("domain", l.asString)])
  else if phoneMatch l then (true, .phone, [("phone", (normalizePhone l).asString)])
  else if usernameMatch l then (true, .username, [("username", l.asString)])
  else if !l.isEmpty then (true, .name, [("name", l.asString)])
  else (false, .unknown, [])

/-- The spec-ordered classifier on a raw query string. -/
def classifySpec (query : String) : ClassifyResult :=
  classifySpecCore (pyStripL query.toList)

/-! ## Dynamic Python values (payloads exchanged by adapters and parser) -/

/-- Substring test used for Python's `needle in haystack` on strings and the
prefix step of `str.replace`: does `needle` start `hay`? -/
def startsWith : List Char → List Char → Bool
  | [], _ => true
  | _ :: _, [] => false
  | n :: ns, h :: hs => n == h && startsWith ns hs

/-- Python `needle in hay` for strings. -/
def containsSub (hay needle : List Char) : Bool :=
  match hay with
  | [] => needle.isEmpty
  | _ :: rest => startsWith needle hay || containsSub rest needle

/-- Python `needle in hay` at the `String` boundary. -/
def strContainsStr (hay needle : String) : Bool := containsSub hay.toList needle.toList

/-- Decimal digits of a natural number, most significant first; `fuel`
bounds the recursion (any `fuel > n` is exact). -/
def natDigits : Nat → Nat → List Char
  | 0, _ => []
  | fuel + 1, n =>
    if n < 10 then [Char.ofNat (48 + n)]
    else natDigits fuel (n / 10) ++ [Char.ofNat (48 + n % 10)]

/-- Python `str(n)` for a natural number. -/
def natToStr (n : Nat) : String := (natDigits (n + 1) n).asString

/-- Python `str(i)` for an integer. -/
def intToStr : Int → String
  | .ofNat n => natToStr n
  | .negSucc n => "-" ++ natToStr (n + 1)

/-- One lowercase hexadecimal digit. -/
def hexDigit (n : Nat) : Char :=
  if n < 10 then Char.ofNat (48 + n) else Char.ofNat (87 + n)

/-- The single-quote character (code 39). -/
def squote : Char := Char.ofNat 39

/-- The double-quote character (code 34). -/
def dquote : Char := Char.ofNat 34

/-- The backslash character (code 92). -/
def bslash : Char := Char.ofNat 92

/-- The opening-brace character (code 123). -/
def obrace : Char := Char.ofNat 123

/-- The closing-brace character (code 125). -/
def cbrace : Char := Char.ofNat 125

/-- Escape of one character inside a Python string repr quoted by `q`. -/
def pyCharEscape (q c : Char) : List Char :=
  if c = bslash then [bslash, bslash]
  else if c = q then [bslash, q]
  else if c = '\n' then [bslash, 'n']
  else if c = '\r' then [bslash, 'r']
  else if c = '\t' then [bslash, 't']
  else if c.toNat < 32 || c.toNat = 127 then
    [bslash, 'x', hexDigit (c.toNat / 16), hexDigit (c.toNat % 16)]
  else [c]

/-- Python `repr(s)` for a string: single quotes unless the string contains
a single quote and no double quote. -/
def pyStrRepr (s : String) : String :=
  let l := s.toList
  let q := if l.contains squote && !(l.contains dquote) then dquote else squote
  (q :: ((l.map (pyCharEscape q)).flatten ++ [q])).asString

/-- Dynamic Python value: the loosely-typed payloads the adapters and the
parser exchange (None, bool, int, str, list, dict with string keys —
the only shapes the modelled code paths construct or inspect). -/
inductive PyVal where
  | none : PyVal
  | bool (b : Bool) : PyVal
  | int (n : Int) : PyVal
  | str (s : String) : PyVal
  | list (xs : List PyVal) : PyVal
  | dict (xs : List (String × PyVal)) : PyVal

mutual

/-- Structural equality of dynamic values (Python `==` on these shapes). -/
def PyVal.beq : PyVal → PyVal → Bool
  | .none, .none => true
  | .bool a, .bool b => a == b
  | .int a, .int b => a == b
  | .str a, .str b => a == b
  | .list a, .list b => PyVal.beqList a b
  | .dict a, .dict b => PyVal.beqDict a b
  | _, _ => false

def PyVal.beqList : List PyVal → List PyVal → Bool
  | [], [] => true
  | a :: as, b :: bs => PyVal.beq a b && PyVal.beqList as bs
  | _, _ => false

def PyVal.beqDict : List (String × PyVal) → List (String × PyVal) → Bool
  | [], [] => true
  | (ka, va) :: as, (kb, vb) :: bs => ka == kb && PyVal.beq va vb && PyVal.beqDict as bs
  | _, _ => false

end

mutual

/-- Python `str(v)` (f-string interpolation): strings verbatim, `None`,
`True`/`False`, decimal integers, and container reprs. -/
def strOfVal : PyVal → String
  | .none => "None"
  | .bool b => if b then "True" else "False"
  | .int n => intToStr n
  | .str s => s
  | .list xs => "[" ++ String.intercalate ", " (reprElems xs) ++ "]"
  | .dict d =>
    String.mk [obrace] ++ String.intercalate ", " (reprEntries d) ++ String.mk [cbrace]

/-- Python `repr(v)`: like `str` but strings are quoted. -/
def reprOfVal : PyVal → String
  | .none => "None"
  | .bool b => if b then "True" else "False"
  | .int n => intToStr n
  | .str s => pyStrRepr s
  | .list xs => "[" ++ String.intercalate ", " (reprElems xs) ++ "]"
  | .dict d =>
    String.mk [obrace] ++ String.intercalate ", " (reprEntries d) ++ String.mk [cbrace]

def reprElems : List PyVal → List String
  | [] => []
  | v :: vs => reprOfVal v :: reprElems vs

def reprEntries : List (String × PyVal) → List String
  | [] => []
  | (k, v) :: rest => (pyStrRepr k ++ ": " ++ reprOfVal v) :: reprEntries rest

end

/-- Python truthiness of a dynamic value. -/
def pyTruthy : PyVal → Bool
  | .none => false
  | .bool b => b
  | .int n => !(n == 0)
  | .str s => !s.isEmpty
  | .list xs => !xs.isEmpty
  | .dict d => !d.isEmpty

/-- The dynamic (exception) outcomes the modelled code can raise. -/
inductive PyExn where
  | typeError | keyError | attrError
deriving DecidableEq, Repr

/-- Fallible Python computation. -/
abbrev PyM (α : Type) := Except PyExn α

/-- A two-way branch bound inside a `do` block (kept as an ordinary
application so the monadic chain stays a plain chain of binds). -/
def iteM {α : Type} (c : Bool) (a b : α) : α := if c then a else b

/-- First-match lookup in a Python dict (keys are unique in real dicts, so
first match is the match). -/
def dictLookup (d : List (String × PyVal)) (k : String) : Option PyVal :=
  match d with
  | [] => Option.none
  | (k', v) :: rest => if k' = k then some v else dictLookup rest k

/-- Python `k in v`: dict key membership, list element membership, substring
test on strings; `TypeError` otherwise. -/
def pyContains (k : String) : PyVal → PyM Bool
  | .dict d => .ok (d.any fun kv => kv.1 == k)
  | .list xs => .ok (xs.any fun v => PyVal.beq v (.str k))
  | .str s => .ok (strContainsStr s k)
  | _ => .error .typeError

/-- Python `v[k]` for a string key: `KeyError` when absent, `TypeError` on
non-dicts (string/list indices must be integers). -/
def pyIndex (v : PyVal) (k : String) : PyM PyVal :=
  match v with
  | .dict d =>
    match dictLookup d k with
    | some x => .ok x
    | Option.none => .error .keyError
  | _ => .error .typeError

/-- Python `v.get(k, dflt)`: `AttributeError` on non-dicts. -/
def pyGet (v : PyVal) (k : String) (dflt : PyVal) : PyM PyVal :=
  match v with
  | .dict d => .ok ((dictLookup d k).getD dflt)
  | _ => .error .attrError

/-- Python iteration `for x in v`: list elements, string characters (as
one-character strings), dict keys; `TypeError` otherwise. -/
def pyIterate : PyVal → PyM (List PyVal)
  | .list xs => .ok xs
  | .str s => .ok (s.toList.map fun c => .str (String.mk [c]))
  | .dict d => .ok (d.map fun kv => PyVal.str kv.1)
  | _ => .error .typeError

/-- Python `len(v)`. -/
def pyLen : PyVal → PyM Nat
  | .list xs => .ok xs.length
  | .str s => .ok s.length
  | .dict d => .ok d.length
  | _ => .error .typeError

/-- Python `v.lower()`: only strings have the method (ASCII case folding,
which covers every string the source constructs). -/
def pyLowerStr : PyVal → PyM String
  | .str s => .ok (s.toList.map Char.toLower).asString
  | _ => .error .attrError

/-- Elements of an iterable for `str.join`: every element must be a string. -/
def asStrList : List PyVal → PyM (List String)
  | [] => .ok []
  | .str s :: rest => do
    let tl ← asStrList rest
    .ok (s :: tl)
  | _ :: _ => .error .typeError

/-- Python `sep.join(v)`. -/
def pyJoin (sep : String) (v : PyVal) : PyM String := do
  let xs ← pyIterate v
  let ss ← asStrList xs
  .ok (String.intercalate sep ss)

/-- Python `str.title()` on the ASCII letters the source's keys use: a
letter after a non-letter is uppercased, a letter after a letter is
lowercased.  `prev` records whether the previous character was a letter. -/
def titleCaseAux (prev : Bool) : List Char → List Char
  | [] => []
  | c :: rest =>
    let isAl := isAlphaA c
    let c' := if isAl && !prev then c.toUpper else if isAl && prev then c.toLower else c
    c' :: titleCaseAux isAl rest

/-- Python `s.title()`. -/
def pyTitle (s : String) : String := (titleCaseAux false s.toList).asString

/-- Scanner for `str.replace`: when `skip` is positive the characters of an
already-matched occurrence are being consumed. -/
def replaceAux (pat rep : List Char) : Nat → List Char → List Char
  | _, [] => []
  | 0, x :: xs =>
    if startsWith pat (x :: xs) then rep ++ replaceAux pat rep (pat.length - 1) xs
    else x :: replaceAux pat rep 0 xs
  | n + 1, _ :: xs => replaceAux pat rep n xs

/-- Python `s.replace(pat, rep)` for the non-empty patterns the source uses
(leftmost, non-overlapping). -/
def pyReplace (s pat rep : String) : String :=
  if pat.isEmpty then s else (replaceAux pat.toList rep.toList 0 s.toList).asString

/-! ## Result parser (`ResultParser`, result_parser.py) -/

/-- The `content` value of an emitted item: every item the source appends
carries either a formatted text block or a list of line strings. -/
inductive Content where
  | text (s : String) : Content
  | items (xs : List String) : Content
deriving DecidableEq, Repr

/-- One item appended to a category by `parse_and_categorize`: a dict
`{"title": ..., "source": ..., "content_type": ..., "content": ...}`.
`title` holds the raw dynamic value the source stores there (for search
results it is the payload's own title object); `source` and `content_type`
are always literal strings in the source. -/
structure Item where
  title : PyVal
  source : String
  content_type : String
  content : Content

/-- First 100 characters, the signature length in `remove_duplicates`. -/
def take100 (s : String) : String := (s.toList.take 100).asString

/-- Python `str(content)` for a list-of-strings content. -/
def pyReprStrList (xs : List String) : String :=
  "[" ++ String.intercalate ", " (xs.map pyStrRepr) ++ "]"

/-- The content signature of `ResultParser.remove_duplicates`
(result_parser.py, lines 137-175): every emitted item has a `content`
field, so the signature is the first 100 characters of the content string,
or of the `str(...)` serialization when the content is a list. -/
def itemSig (it : Item) : String :=
  match it.content with
  | .text s => take100 s
  | .items xs => take100 (pyReprStrList xs)

/-- The loop of `remove_duplicates`: `seen` is the set of signatures already
kept (a list, queried only for membership). -/
def removeDupAux (seen : List String) : List Item → List Item
  | [] => []
  | it :: rest =>
    if itemSig it ∈ seen then removeDupAux seen rest
    else it :: removeDupAux (itemSig it :: seen) rest

/-- `ResultParser.remove_duplicates`. -/
def remove_duplicates (items : List Item) : List Item := removeDupAux [] items

/-- A categorized result: the category dict built by
`parse_and_categorize`, keys in insertion order. -/
abbrev Categorized := List (String × List Item)

/-- The category dict literal at the top of `parse_and_categorize`
(result_parser.py, lines 187-195). -/
def emptyCategorized : Categorized :=
  [("contact_info", []), ("social_profiles", []), ("domain_info", []),
   ("breach_data", []), ("location_data", []), ("related_links", []), ("raw_data", [])]

/-- `categorized[name].append(item)`: the list under an existing key grows
at the end; assignments in the source only ever target the literal's keys. -/
def catAppend (cat : Categorized) (name : String) (it : Item) : Categorized :=
  cat.map fun kv => if kv.1 = name then (kv.1, kv.2 ++ [it]) else kv

/-- `dict.get(key, [])` as `generate_summary` reads categories. -/
def catGet (cr : Categorized) (k : String) : List Item :=
  match cr with
  | [] => []
  | (k', v) :: rest => if k' = k then v else catGet rest k

mutual

/-- `ResultParser._format_dict_as_text` (result_parser.py, lines 502-536):
iterates `.items()` of a dict (`AttributeError` on anything else, as in
Python), formatting each entry and joining with newlines. -/
def formatDictVal : PyVal → PyM String
  | .dict d => do
    let lines ← formatEntries d
    .ok (String.intercalate "\n" lines)
  | _ => .error .attrError

def formatEntries : List (String × PyVal) → PyM (List String)
  | [] => .ok []
  | (k, v) :: rest => do
    let here ← formatEntry (pyTitle (pyReplace k "_" " ")) v
    let more ← formatEntries rest
    .ok (here ++ more)

/-- One entry: lists of dicts become an indented `-` block, other lists a
comma join of `str(...)`, nested dicts recurse with two-space indent, and
plain values print as `key: str(value)`. -/
def formatEntry (dk : String) : PyVal → PyM (List String)
  | .list xs =>
    match xs with
    | .dict d₀ :: tl => do
      let ls ← formatListItems (PyVal.dict d₀ :: tl)
      .ok ((dk ++ ":") :: ls)
    | _ => .ok [dk ++ ": " ++ String.intercalate ", " (xs.map strOfVal)]
  | .dict d' => do
    let entryLines ← formatEntries d'
    let nested := String.intercalate "\n" entryLines
    .ok [dk ++ ":", "  " ++ pyReplace nested "\n" "\n  "]
  | v => .ok [dk ++ ": " ++ strOfVal v]

def formatListItems : List PyVal → PyM (List String)
  | [] => .ok []
  | v :: rest => do
    let s ← formatDictVal v
    let more ← formatListItems rest
    .ok (("  - " ++ pyReplace s "\n" "\n    ") :: more)

end

/-- The `for key in [...]` loops that copy selected truthy fields of a
payload into a fresh dict, renaming keys through `rename` (identity, or
stripping `registrant_`).  Faithful to
`if key in data and data[key]: out[rename(key)] = data[key]`. -/
def buildSubDict (v : PyVal) (rename : String → String) :
    List String → PyM (List (String × PyVal))
  | [] => .ok []
  | key :: rest => do
    let has ← pyContains key v
    if has then do
      let x ← pyIndex v key
      if pyTruthy x then do
        let more ← buildSubDict v rename rest
        .ok ((rename key, x) :: more)
      else buildSubDict v rename rest
    else buildSubDict v rename rest

/-- The "Domain WHOIS" block of `parse_and_categorize` (result_parser.py,
lines 201-226). -/
def whoisDomainBlock (domain_data : PyVal) (cat : Categorized) : PyM Categorized := do
  let hasDn ← pyContains "domain_name" domain_data
  let cat ← iteM hasDn
    (do
      let dn ← pyGet domain_data "domain_name" (.str "Domain")
      let content ← formatDictVal domain_data
      pure (catAppend cat "domain_info"
        { title := .str ("WHOIS Information for " ++ strOfVal dn),
          source := "WHOIS", content_type := "pre", content := .text content }))
    (pure cat)
  let contact_info ← buildSubDict domain_data (fun k => pyReplace k "registrant_" "")
    ["registrant_name", "registrant_email", "registrant_phone",
     "registrant_organization"]
  if contact_info.isEmpty then pure cat
  else do
    let content ← formatDictVal (.dict contact_info)
    pure (catAppend cat "contact_info"
      { title := .str "Domain Registrant Contact Information",
        source := "WHOIS", content_type := "pre", content := .text content })

/-- The "IP WHOIS" block of `parse_and_categorize` (result_parser.py, lines
228-252). -/
def whoisIpBlock (ip_data : PyVal) (cat : Categorized) : PyM Categorized := do
  let q ← pyGet ip_data "query" (.str "IP")
  let ipLabel ← pyGet ip_data "ip" q
  let content ← formatDictVal ip_data
  let cat := catAppend cat "raw_data"
    { title := .str ("WHOIS Information for IP " ++ strOfVal ipLabel),
      source := "WHOIS", content_type := "pre", content := .text content }
  let location_info ← buildSubDict ip_data (fun k => k)
    ["country", "city", "region", "address", "netname", "organization"]
  if location_info.isEmpty then .ok cat
  else do
    let content2 ← formatDictVal (.dict location_info)
    .ok (catAppend cat "location_data"
      { title := .str "IP Location Information", source := "WHOIS",
        content_type := "pre", content := .text content2 })

/-- The WHOIS block of `parse_and_categorize` (result_parser.py, lines
197-252). -/
def processWhois (results : PyVal) (cat : Categorized) : PyM Categorized := do
  let hasWhois ← pyContains "whois" results
  if !hasWhois then .ok cat else do
    let whois_data ← pyIndex results "whois"
    let hasDomain ← pyContains "domain" whois_data
    let cat ← iteM hasDomain
      (do
        let domain_data ← pyIndex whois_data "domain"
        whoisDomainBlock domain_data cat)
      (pure cat)
    let hasIp ← pyContains "ip" whois_data
    if !hasIp then .ok cat else do
      let ip_data ← pyIndex whois_data "ip"
      whoisIpBlock ip_data cat

/-- The lazy `any(term in title.lower() or term in snippet.lower() ...)`
profile-term check: the snippet is fetched and lowered only when a term
misses the title, exactly as the generator expression evaluates. -/
def anyTermHit (r : PyVal) (tLow : String) : List String → PyM Bool
  | [] => .ok false
  | term :: rest => do
    if strContainsStr tLow term then .ok true
    else do
      let sn ← pyIndex r "snippet"
      let snLow ← pyLowerStr sn
      if strContainsStr snLow term then .ok true
      else anyTermHit r tLow rest

/-- One search result of the per-engine loop (result_parser.py, lines
263-284 for DuckDuckGo, 299-320 for Bing): accumulate the
`"title - url"` link line, then the contact check, then the profile check,
in the source's evaluation order. -/
def processResult (src : String) (cat : Categorized) (links : List String) (r : PyVal) :
    PyM (Categorized × List String) := do
  let t ← pyIndex r "title"
  let u ← pyIndex r "url"
  let links := links ++ [strOfVal t ++ " - " ++ strOfVal u]
  let tLow ← pyLowerStr t
  let contactHit ← iteM (strContainsStr tLow "contact")
    (pure true)
    (do
      let sn ← pyIndex r "snippet"
      let snLow ← pyLowerStr sn
      pure (strContainsStr snLow "contact"))
  let cat ← iteM contactHit
    (do
      let sn ← pyIndex r "snippet"
      let u2 ← pyIndex r "url"
      pure (catAppend cat "contact_info"
        { title := t, source := src, content_type := "text",
          content := .text (strOfVal sn ++ "\n\nLink: " ++ strOfVal u2) }))
    (pure cat)
  let socialHit ← anyTermHit r tLow ["profile", "linkedin", "facebook", "twitter", "social"]
  if socialHit then do
    let sn ← pyIndex r "snippet"
    let u3 ← pyIndex r "url"
    .ok (catAppend cat "social_profiles"
      { title := t, source := src, content_type := "text",
        content := .text (strOfVal sn ++ "\n\nLink: " ++ strOfVal u3) }, links)
  else .ok (cat, links)

def processResults (src : String) (cat : Categorized) (links : List String) :
    List PyVal → PyM (Categorized × List String)
  | [] => .ok (cat, links)
  | r :: rest => do
    let p ← processResult src cat links r
    processResults src p.1 p.2 rest

/-- One engine's block: read `search_results[engine]`, iterate it, and emit
the collected link lines as one `related_links` item when non-empty. -/
def processEngine (engineKey src relTitle : String) (search_results : PyVal)
    (cat : Categorized) : PyM Categorized := do
  let has ← pyContains engineKey search_results
  if !has then .ok cat else do
    let data ← pyIndex search_results engineKey
    let items ← pyIterate data
    let p ← processResults src cat [] items
    if p.2.isEmpty then .ok p.1
    else .ok (catAppend p.1 "related_links"
      { title := .str relTitle, source := src, content_type := "list",
        content := .items p.2 })

/-- The search-engine block of `parse_and_categorize` (result_parser.py,
lines 254-328). -/
def processSearch (results : PyVal) (cat : Categorized) : PyM Categorized := do
  let has ← pyContains "search_engines" results
  if !has then .ok cat else do
    let sr ← pyIndex results "search_engines"
    let cat ← processEngine "duckduckgo" "DuckDuckGo" "Related Links from DuckDuckGo" sr cat
    processEngine "bing" "Bing" "Related Links from Bing" sr cat

/-- One Hunter.io email entry line (result_parser.py, lines 392-399). -/
def collectEmailLines (acc : List String) : List PyVal → PyM (List String)
  | [] => .ok acc
  | entry :: rest => do
    let hasV ← pyContains "value" entry
    if hasV then do
      let v ← pyIndex entry "value"
      let line := strOfVal v
      let hasFn ← pyContains "first_name" entry
      let line ← iteM hasFn
        (do
          let hasLn ← pyContains "last_name" entry
          iteM hasLn
            (do
              let fn ← pyIndex entry "first_name"
              let ln ← pyIndex entry "last_name"
              pure (line ++ " - " ++ strOfVal fn ++ " " ++ strOfVal ln))
            (pure line))
        (pure line)
      let hasPos ← pyContains "position" entry
      let line ← iteM hasPos
        (do
          let p ← pyIndex entry "position"
          pure (line ++ " (" ++ strOfVal p ++ ")"))
        (pure line)
      collectEmailLines (acc ++ [line]) rest
    else collectEmailLines acc rest

/-- The Hunter.io domain block (result_parser.py, lines 356-370). -/
def hunterDomainBlock (hunter : PyVal) (cat : Categorized) : PyM Categorized := do
  let dv ← pyIndex hunter "domain"
  let disp ← pyGet hunter "disposable" (.bool false)
  let web ← pyGet hunter "webmail" (.bool false)
  let pat ← pyGet hunter "pattern" PyVal.none
  let domain_info : List (String × PyVal) :=
    [("domain", dv), ("disposable", disp), ("webmail", web), ("pattern", pat)]
  let dv2 ← pyIndex hunter "domain"
  let content ← formatDictVal (.dict domain_info)
  pure (catAppend cat "domain_info"
    { title := .str ("Domain Information for " ++ strOfVal dv2),
      source := "Hunter.io", content_type := "pre", content := .text content })

/-- The Hunter.io email-verification block (result_parser.py, lines
372-387). -/
def hunterEmailBlock (hunter : PyVal) (cat : Categorized) : PyM Categorized := do
  let ev ← pyIndex hunter "email"
  let status ← pyGet hunter "status" (.str "unknown")
  let disp ← pyGet hunter "disposable" (.bool false)
  let web ← pyGet hunter "webmail" (.bool false)
  let srcs ← pyGet hunter "sources" (.list [])
  let n ← pyLen srcs
  let email_info : List (String × PyVal) :=
    [("email", ev), ("status", status), ("disposable", disp), ("webmail", web),
     ("sources", .int n)]
  let ev2 ← pyIndex hunter "email"
  let content ← formatDictVal (.dict email_info)
  pure (catAppend cat "contact_info"
    { title := .str ("Email Information for " ++ strOfVal ev2),
      source := "Hunter.io", content_type := "pre", content := .text content })

/-- The Hunter.io found-emails block (result_parser.py, lines 389-407). -/
def hunterEmailsBlock (hunter : PyVal) (cat : Categorized) : PyM Categorized := do
  let e ← pyIndex hunter "emails"
  let entries ← pyIterate e
  let emails ← collectEmailLines [] entries
  if emails.isEmpty then .ok cat
  else do
    let dflt ← pyGet hunter "domain" (.str "Domain")
    .ok (catAppend cat "contact_info"
      { title := .str ("Email Addresses Found for " ++ strOfVal dflt),
        source := "Hunter.io", content_type := "list", content := .items emails })

/-- The Hunter.io block of `parse_and_categorize` (result_parser.py, lines
352-407). -/
def processHunter (api : PyVal) (cat : Categorized) : PyM Categorized := do
  let hunter ← pyIndex api "hunter"
  let hasD ← pyContains "domain" hunter
  let cat ← iteM hasD (hunterDomainBlock hunter cat) (pure cat)
  let hasE ← pyContains "email" hunter
  let cat ← iteM hasE (hunterEmailBlock hunter cat) (pure cat)
  let hasEmails ← pyContains "emails" hunter
  let proceed ← iteM hasEmails
    (do
      let e ← pyIndex hunter "emails"
      pure (pyTruthy e))
    (pure false)
  if !proceed then .ok cat else hunterEmailsBlock hunter cat

/-- One HaveIBeenPwned breach record, as `parse_and_categorize` copies it
(result_parser.py, lines 414-427). -/
structure BreachInfo where
  name : PyVal
  btitle : PyVal
  domain : PyVal
  breach_date : PyVal
  added_date : PyVal
  modified_date : PyVal
  pwn_count : PyVal
  description : PyVal
  data_classes : String

def collectBreaches (acc : List BreachInfo) : List PyVal → PyM (List BreachInfo)
  | [] => .ok acc
  | b :: rest => do
    let nm ← pyGet b "Name" (.str "Unknown")
    let ti ← pyGet b "Title" (.str "Unknown")
    let dm ← pyGet b "Domain" (.str "Unknown")
    let bd ← pyGet b "BreachDate" (.str "Unknown")
    let ad ← pyGet b "AddedDate" (.str "Unknown")
    let md ← pyGet b "ModifiedDate" (.str "Unknown")
    let pc ← pyGet b "PwnCount" (.int 0)
    let de ← pyGet b "Description" (.str "No description available")
    let dcv ← pyGet b "DataClasses" (.list [])
    let dc ← pyJoin ", " dcv
    let bi : BreachInfo :=
      { name := nm, btitle := ti, domain := dm, breach_date := bd, added_date := ad,
        modified_date := md, pwn_count := pc, description := de, data_classes := dc }
    collectBreaches (acc ++ [bi]) rest

/-- One breach text block (result_parser.py, lines 432-440). -/
def breachText (b : BreachInfo) : String :=
  "Name: " ++ strOfVal b.name ++ "\n" ++
  "Title: " ++ strOfVal b.btitle ++ "\n" ++
  "Domain: " ++ strOfVal b.domain ++ "\n" ++
  "Breach Date: " ++ strOfVal b.breach_date ++ "\n" ++
  "Records Exposed: " ++ strOfVal b.pwn_count ++ "\n" ++
  "Data Compromised: " ++ b.data_classes ++ "\n" ++
  "Description: " ++ strOfVal b.description

/-- The HaveIBeenPwned block of `parse_and_categorize` (result_parser.py,
lines 409-447). -/
def processHibp (api : PyVal) (cat : Categorized) : PyM Categorized := do
  let hibp ← pyIndex api "haveibeenpwned"
  let entries ← pyIterate hibp
  let breaches ← collectBreaches [] entries
  if breaches.isEmpty then .ok cat
  else
    .ok (catAppend cat "breach_data"
      { title := .str ("Data Breaches (" ++ natToStr breaches.length ++ " found)"),
        source := "Have I Been Pwned", content_type := "list",
        content := .items (breaches.map breachText) })

/-- The API block of `parse_and_categorize` (result_parser.py, lines
330-447). -/
def processApi (results : PyVal) (cat : Categorized) : PyM Categorized := do
  let has ← pyContains "api_sources" results
  if !has then .ok cat else do
    let api ← pyIndex results "api_sources"
    let hasIpinfo ← pyContains "ipinfo" api
    let cat ← iteM hasIpinfo
      (do
        let ipinfo ← pyIndex api "ipinfo"
        let location_info ← buildSubDict ipinfo (fun k => k)
          ["ip", "hostname", "city", "region", "country", "loc", "org", "postal", "timezone"]
        if location_info.isEmpty then pure cat
        else do
          let ipv ← pyGet ipinfo "ip" (.str "IP")
          let content ← formatDictVal (.dict location_info)
          pure (catAppend cat "location_data"
            { title := .str ("IP Location Information for " ++ strOfVal ipv),
              source := "IPinfo.io", content_type := "pre", content := .text content }))
      (pure cat)
    let hasHunter ← pyContains "hunter" api
    let cat ← iteM hasHunter (processHunter api cat) (pure cat)
    let hasHibp ← pyContains "haveibeenpwned" api
    if hasHibp then processHibp api cat else .ok cat

/-- `ResultParser.parse_and_categorize` (result_parser.py, lines 177-453):
the category dict literal, then the WHOIS, search-engine and API blocks,
then per-category deduplication. -/
def parse_and_categorize (results : PyVal) : PyM Categorized := do
  let cat := emptyCategorized
  let cat ← processWhois results cat
  let cat ← processSearch results cat
  let cat ← processApi results cat
  .ok (cat.map fun kv => (kv.1, remove_duplicates kv.2))

/-- `ResultParser.generate_summary` (result_parser.py, lines 455-500). -/
def generate_summary (cr : Categorized) : String :=
  let contact_count := (catGet cr "contact_info").length
  let social_count := (catGet cr "social_profiles").length
  let domain_count := (catGet cr "domain_info").length
  let breach_count := (catGet cr "breach_data").length
  let location_count := (catGet cr "location_data").length
  let links_count := (catGet cr "related_links").length
  let summary_lines :=
    (if 0 < contact_count then
      ["• Found <b>" ++ natToStr contact_count ++ "</b> contact information items"]
     else []) ++
    (if 0 < social_count then
      ["• Identified <b>" ++ natToStr social_count ++ "</b> social profile references"]
     else []) ++
    (if 0 < domain_count then
      ["• Collected <b>" ++ natToStr domain_count ++ "</b> domain information records"]
     else []) ++
    (if 0 < breach_count then
      ["• Discovered <b>" ++ natToStr breach_count ++ "</b> data breach records"]
     else []) ++
    (if 0 < location_count then
      ["• Located <b>" ++ natToStr location_count ++ "</b> geographical location references"]
     else []) ++
    (if 0 < links_count then
      (let related_links_count :=
        ((catGet cr "related_links").map fun it =>
          match it.content with
          | .items xs => xs.length
          | .text _ => 0).sum
       ["• Found <b>" ++ natToStr related_links_count ++ "</b> related links from search engines"])
     else [])
  if summary_lines.isEmpty then
    String.intercalate "<br>"
      ["• No significant information found for the provided query",
       "• Consider trying a different query or enabling additional data sources"]
  else String.intercalate "<br>" summary_lines

/-- The combined pipeline step the idempotence claim is about:
categorize then summarize. -/
def summarizeCategorized (results : PyVal) : PyM String := do
  let cat ← parse_and_categorize results
  .ok (generate_summary cat)

/-! ## API source adapters (`APISources`, api_sources.py)

The HTTP interaction is abstracted as an explicit outcome parameter: either
a response (status code plus a JSON body that parses or not) or a raised
transport exception.  Exception message text from third-party libraries is
abstracted; the literal strings the source itself builds are kept exactly.
Each adapter's API key comes from `settings` (config.py), where a missing
environment variable defaults to the empty string, and `if not key`
is emptiness. -/

/-- Exceptions the adapter bodies can raise (caught by their `except`
clauses). -/
inductive HttpExn where
  | httpStatusError (status : Nat)
  | transportError
  | jsonError
  | indexError
deriving DecidableEq, Repr

/-- Outcome of one `client.get(url)` call. -/
inductive HttpOutcome where
  | resp (status : Nat) (body : Except Unit PyVal)
  | transportExn

/-- Fallible adapter body. -/
abbrev HttpM (α : Type) := Except HttpExn α

/-- `await client.get(url)`: a transport failure raises. -/
def awaitGet : HttpOutcome → HttpM (Nat × Except Unit PyVal)
  | .resp st body => .ok (st, body)
  | .transportExn => .error .transportError

/-- `response.raise_for_status()`: 4xx and 5xx responses raise
`HTTPStatusError` carrying the status. -/
def raiseForStatus (st : Nat) : HttpM Unit :=
  if 400 ≤ st ∧ st < 600 then .error (.httpStatusError st) else .ok ()

/-- `response.json()`. -/
def jsonOf : Except Unit PyVal → HttpM PyVal
  | .ok v => .ok v
  | .error _ => .error .jsonError

/-- Dynamic-value operations inside adapter bodies, lifted to `HttpM`
(`TypeError` and friends are ordinary exceptions the generic
`except Exception` clauses catch, so the distinction of kinds is not
observable there). -/
def liftPy {α : Type} : PyM α → HttpM α
  | .ok a => .ok a
  | .error _ => .error .jsonError

/-- Python `errors[0]` (integer indexing). -/
def pyIndexNat (v : PyVal) (i : Nat) : HttpM PyVal :=
  match v with
  | .list xs =>
    match xs.drop i with
    | x :: _ => .ok x
    | [] => .error .indexError
  | .str s =>
    match s.toList.drop i with
    | c :: _ => .ok (.str (String.mk [c]))
    | [] => .error .indexError
  | _ => .error .indexError

/-- The `try` body of `APISources.fetch_ipinfo` (api_sources.py, lines
43-55). -/
def ipinfoTry (outcome : HttpOutcome) : HttpM PyVal := do
  let (st, body) ← awaitGet outcome
  let _ ← raiseForStatus st
  let data ← jsonOf body
  let hasErr ← liftPy (pyContains "error" data)
  if hasErr then do
    let e ← liftPy (pyGet data "error" (.dict []))
    let t ← liftPy (pyGet e "title" (.str "Unknown error"))
    .ok (.dict [("error", t)])
  else .ok data

/-- `APISources.fetch_ipinfo` (api_sources.py, lines 29-59): missing key
short-circuits to the literal not-configured error dict; any exception in
the body is caught and converted to an error dict (message text
abstracted), so the adapter always returns. -/
def fetch_ipinfo (key ip : String) (outcome : HttpOutcome) : PyVal :=
  if key.isEmpty then .dict [("error", .str "IPinfo API key not set")]
  else
    match ipinfoTry outcome with
    | .ok v => v
    | .error _ => .dict [("error", .str ("Error fetching IPinfo for " ++ ip))]

/-- The `try` body of `APISources.fetch_hunter_email_info` (api_sources.py,
lines 75-95). -/
def hunterTry (outcome : HttpOutcome) : HttpM PyVal := do
  let (st, body) ← awaitGet outcome
  let _ ← raiseForStatus st
  let data ← jsonOf body
  let hasErrs ← liftPy (pyContains "errors" data)
  if hasErrs then do
    let errs ← liftPy (pyGet data "errors" (.list []))
    let msg ← iteM (pyTruthy errs)
      (do
        let first ← pyIndexNat errs 0
        liftPy (pyGet first "details" PyVal.none))
      (pure (PyVal.str "Unknown error"))
    .ok (.dict [("error", msg)])
  else liftPy (pyGet data "data" (.dict []))

/-- `APISources.fetch_hunter_email_info` (api_sources.py, lines 61-100). -/
def fetch_hunter_email_info (key domain_or_email : String) (outcome : HttpOutcome) : PyVal :=
  if key.isEmpty then .dict [("error", .str "Hunter.io API key not set")]
  else
    match hunterTry outcome with
    | .ok v => v
    | .error _ =>
      .dict [("error", .str ("Error fetching Hunter.io data for " ++ domain_or_email))]

/-- The `try` body of `APISources.fetch_haveibeenpwned` (api_sources.py,
lines 116-141): a 404 response returns the empty list before
`raise_for_status` runs. -/
def hibpTry (outcome : HttpOutcome) : HttpM PyVal := do
  let (st, body) ← awaitGet outcome
  if st == 404 then .ok (.list [])
  else do
    let _ ← raiseForStatus st
    jsonOf body

/-- `APISources.fetch_haveibeenpwned` (api_sources.py, lines 102-153):
missing key yields the literal not-configured error list; `HTTPStatusError`
is re-checked for 404 (returning the empty list) and otherwise converted to
an error list; any other exception is converted to an error list.  The
adapter always returns. -/
def fetch_haveibeenpwned (key account : String) (outcome : HttpOutcome) : PyVal :=
  if key.isEmpty then .list [.dict [("error", .str "HaveIBeenPwned API key not set")]]
  else
    match hibpTry outcome with
    | .ok v => v
    | .error (.httpStatusError st) =>
      if st == 404 then .list []
      else .list [.dict [("error",
        .str ("HTTP error fetching HaveIBeenPwned data for " ++ account))]]
    | .error _ =>
      .list [.dict [("error", .str ("Error fetching HaveIBeenPwned data for " ++ account))]]

/-! ## WHOIS raw-text fallback parser (`WhoisLookup._parse_raw_whois`,
whois_lookup.py, lines 136-202) -/

/-- A parsed WHOIS field value: a single string, or the accumulated
name-server list. -/
inductive WVal where
  | s (v : String) : WVal
  | l (vs : List String) : WVal
deriving DecidableEq, Repr

/-- The fixed field-name table `field_mapping` (whois_lookup.py, lines
152-174). -/
def whoisFieldMapping : List (String × String) :=
  [("domain name", "domain_name"), ("registrar", "registrar"),
   ("created", "creation_date"), ("creation date", "creation_date"),
   ("registrar registration expiration date", "expiration_date"),
   ("updated date", "updated_date"), ("name server", "name_servers"),
   ("status", "status"), ("registrant name", "registrant_name"),
   ("registrant organization", "registrant_organization"),
   ("registrant email", "registrant_email"), ("admin name", "admin_name"),
   ("admin email", "admin_email"), ("tech name", "tech_name"),
   ("tech email", "tech_email"), ("netname", "netname"),
   ("netrange", "netrange"), ("organization", "organization"),
   ("org", "organization"), ("cidr", "cidr"), ("country", "country")]

/-- First-match lookup in a fixed string table. -/
def assocFind (m : List (String × String)) (k : String) : Option String :=
  match m with
  | [] => Option.none
  | (k', v) :: rest => if k' = k then some v else assocFind rest k

/-- Python `line.split(":", 1)`: the text before the first colon and the
text after it, or nothing when the line has no colon (the `continue`
branch). -/
def splitFirstColon : List Char → Option (List Char × List Char)
  | [] => Option.none
  | c :: cs =>
    if c = ':' then some ([], cs)
    else
      match splitFirstColon cs with
      | some (a, b) => some (c :: a, b)
      | Option.none => Option.none

/-- Python dict assignment `d[k] = v`: overwrite in place, append when
new. -/
def assocSet (d : List (String × WVal)) (k : String) (v : WVal) : List (String × WVal) :=
  match d with
  | [] => [(k, v)]
  | (k', v') :: rest => if k' = k then (k', v) :: rest else (k', v') :: assocSet rest k v

/-- First-match lookup in the parsed WHOIS dict. -/
def wvalFind (d : List (String × WVal)) (k : String) : Option WVal :=
  match d with
  | [] => Option.none
  | (k', v) :: rest => if k' = k then some v else wvalFind rest k

/-- Key normalization and table lookup for one raw line: strip the line,
split at the first colon, strip and lowercase the key, strip the value,
and match the key case-insensitively against the fixed table.  Returns the
mapped key and the value, or nothing for skipped lines. -/
def pairOfLine (rawLine : String) : Option (String × String) :=
  let line := pyStripL rawLine.toList
  match splitFirstColon line with
  | Option.none => Option.none
  | some (k0, v0) =>
    match assocFind whoisFieldMapping ((pyStripL k0).map Char.toLower).asString with
    | Option.none => Option.none
    | some mapped => some (mapped, (pyStripL v0).asString)

/-- One iteration of the `for line in lines` loop: name-server values
append to the running `name_servers` list (which is re-assigned into the
dict each time, so the final value is the full accumulated list); every
other mapped key is overwritten with the latest value. -/
def whoisStep (st : List (String × WVal) × List String) (rawLine : String) :
    List (String × WVal) × List String :=
  match pairOfLine rawLine with
  | Option.none => st
  | some (mapped, value) =>
    if mapped = "name_servers" then
      let ns := st.2 ++ [value]
      (assocSet st.1 "name_servers" (.l ns), ns)
    else (assocSet st.1 mapped (.s value), st.2)

/-- Python `raw_output.splitlines()` for newline-separated text: split on
newlines, with no empty trailing entry after a final newline. -/
def pySplitLines (s : String) : List String :=
  let ps := splitCh '\n' s.toList
  let ps :=
    match ps.reverse with
    | [] :: r => r.reverse
    | _ => ps
  ps.map List.asString

/-- `WhoisLookup._parse_raw_whois`: the `raw_text` entry followed by the
extracted fields in insertion order. -/
def parseRawWhois (raw : String) : List (String × WVal) :=
  ("raw_text", .s raw) :: ((pySplitLines raw).foldl whoisStep ([], [])).1

/-- The mapped `(key, value)` pairs of the raw text in input order, the
declarative description `parseRawWhois` is proved against: one pair per
line whose stripped, lowercased key is in the fixed table. -/
def whoisMappedPairs (raw : String) : List (String × String) :=
  (pySplitLines raw).filterMap pairOfLine

/-- Values carried by name-server pairs, in input order. -/
def nsValues (pairs : List (String × String)) : List String :=
  pairs.filterMap fun kv => if kv.1 = "name_servers" then some kv.2 else Option.none

/-- The last value carried by pairs with a given key. -/
def lastVal (pairs : List (String × String)) (k : String) : Option String :=
  match pairs with
  | [] => Option.none
  | (k', v) :: rest =>
    match lastVal rest k with
    | some w => some w
    | Option.none => if k' = k then some v else Option.none

/-! ## Definitions taken from the spec's words, for comparison -/

/-- Modelled from the spec: the closed category-name set of §3/§6
("emails, phone_numbers, social_links, addresses, business_info, leaks,
domains, ips, raw_results"). -/
def specCategoryNames : List String :=
  ["emails", "phone_numbers", "social_links", "addresses", "business_info",
   "leaks", "domains", "ips", "raw_results"]

/-- Modelled from the spec: §4.5's fingerprint for search-style items,
`title|url`. -/
def specSearchFingerprint (r : PyVal) : PyM String := do
  let t ← pyIndex r "title"
  let u ← pyIndex r "url"
  .ok (strOfVal t ++ "|" ++ strOfVal u)

/-! ## Concrete demonstration inputs -/

/-- A DuckDuckGo result whose title and URL repeat in `searchResultB`. -/
def searchResultA : PyVal :=
  .dict [("title", .str "Contact Acme"), ("url", .str "http://acme.example"),
    ("snippet", .str "one snippet about the firm")]

/-- Same title and URL as `searchResultA`, different snippet. -/
def searchResultB : PyVal :=
  .dict [("title", .str "Contact Acme"), ("url", .str "http://acme.example"),
    ("snippet", .str "two snippet about the firm")]

/-- A combined-results payload carrying the two duplicate-fingerprint
search results. -/
def demoResults : PyVal :=
  .dict [("search_engines", .dict [("duckduckgo", .list [searchResultA, searchResultB])])]

/-- Two items with identical content, hence identical dedup signatures. -/
def demoItemA : Item :=
  { title := .str "t", source := "DuckDuckGo", content_type := "text",
    content := .text "same content" }

/-- Second occurrence of the same content from another source. -/
def demoItemB : Item :=
  { title := .str "t", source := "Bing", content_type := "text",
    content := .text "same content" }

/-- The duplicate pair fed to `remove_duplicates`. -/
def demoItems : List Item := [demoItemA, demoItemB]

example : validate_and_identify "jane.doe@example.com" =
    (true, .email, [("email", "jane.doe@example.com"), ("username", "jane.doe"),
      ("domain", "example.com")]) := by decide

example : validate_and_identify "8.8.8.8" = (true, .ip, [("ip", "8.8.8.8")]) := by decide

example : validate_and_identify "2001:db8::1" = (true, .ip, [("ip", "2001:db8::1")]) := by
  decide

example : validate_and_identify "example.com" = (true, .domain, [("domain", "example.com")]) := by
  decide

example : validate_and_identify "+1 (555) 123-4567" =
    (true, .phone, [("phone", "+15551234567")]) := by decide

example : validate_and_identify "jane_doe" = (true, .username, [("username", "jane_doe")]) := by
  decide

example : validate_and_identify "Jane Doe" = (true, .name, [("name", "Jane Doe")]) := by decide

example : validate_and_identify "" = (false, .unknown, []) := by decide

example : validate_and_identify "   " = (false, .unknown, []) := by decide

/-! ## Lemmas about the classifier's patterns -/

theorem splitCh_ne_nil (c : Char) (l : List Char) : splitCh c l ≠ [] := by
  induction l with
  | nil => simp [splitCh]
  | cons x xs ih =>
    simp only [splitCh]
    split
    · simp
    · split
      · simp
      · simp

theorem splitCh_of_not_mem {c : Char} {l : List Char} (h : c ∉ l) : splitCh c l = [l] := by
  induction l with
  | nil => rfl
  | cons x xs ih =>
    simp only [List.mem_cons, not_or] at h
    simp only [splitCh]
    rw [if_neg (fun hxc => h.1 hxc.symm), ih h.2]

theorem mem_of_splitCh_length (c : Char) (l : List Char)
    (h : 2 ≤ (splitCh c l).length) : c ∈ l := by
  by_contra hc
  rw [splitCh_of_not_mem hc] at h
  simp at h

theorem mem_splitCh_of_mem (c : Char) {x : Char} {l : List Char} (hx : x ∈ l) :
    x = c ∨ ∃ g ∈ splitCh c l, x ∈ g := by
  induction l with
  | nil => simp at hx
  | cons y ys ih =>
    simp only [splitCh]
    rcases List.mem_cons.mp hx with hxy | hmem
    · subst hxy
      by_cases hyc : x = c
      · left; exact hyc
      · right
        rw [if_neg hyc]
        rcases hg : splitCh c ys with _ | ⟨g, gs⟩
        · exact absurd hg (splitCh_ne_nil c ys)
        · exact ⟨x :: g, List.mem_cons_self _ _, List.mem_cons_self _ _⟩
    · rcases ih hmem with hxc | ⟨g, hg, hxg⟩
      · left; exact hxc
      · right
        by_cases hyc : y = c
        · rw [if_pos hyc]
          exact ⟨g, List.mem_cons_of_mem _ hg, hxg⟩
        · rw [if_neg hyc]
          rcases hsp : splitCh c ys with _ | ⟨g₀, gs⟩
          · exact absurd hsp (splitCh_ne_nil c ys)
          · rw [hsp] at hg
            rcases List.mem_cons.mp hg with hgg | hgs
            · subst hgg
              exact ⟨y :: g, List.mem_cons_self _ _, List.mem_cons_of_mem _ hxg⟩
            · exact ⟨g, List.mem_cons_of_mem _ hgs, hxg⟩

theorem not_digitA_of_alphaA {c : Char} (h : isAlphaA c = true) : isDigitA c = false := by
  rw [Bool.eq_false_iff]
  intro hd
  simp only [isAlphaA, isUpperA, isLowerA, Bool.or_eq_true, Bool.and_eq_true,
    decide_eq_true_eq] at h
  simp only [isDigitA, Bool.and_eq_true, decide_eq_true_eq] at hd
  omega

theorem hostChar_of_alnumA {c : Char} (h : isAlnumA c = true) : hostChar c = true := by
  simp [hostChar, h]

theorem labelOk_chars {g : List Char} (h : labelOk g = true) : ∀ x ∈ g, hostChar x = true := by
  match g with
  | [] => simp [labelOk] at h
  | c :: rest =>
    simp only [labelOk] at h
    intro x hx
    rcases hr : rest.reverse with _ | ⟨lst, midRev⟩
    · rw [hr] at h
      have : rest = [] := by
        have := congrArg List.reverse hr
        simpa using this
      subst this
      rcases List.mem_cons.mp hx with hxc | hfalse
      · subst hxc; exact hostChar_of_alnumA h
      · simp at hfalse
    · rw [hr] at h
      simp only [Bool.and_eq_true] at h
      rcases List.mem_cons.mp hx with hxc | hrest
      · subst hxc; exact hostChar_of_alnumA h.1.1.1
      · have : x ∈ rest.reverse := List.mem_reverse.mpr hrest
        rw [hr] at this
        rcases List.mem_cons.mp this with hxl | hxm
        · subst hxl; exact hostChar_of_alnumA h.1.1.2
        · exact (List.all_eq_true.mp h.1.2) x hxm

theorem tldOk_chars {g : List Char} (h : tldOk g = true) : ∀ x ∈ g, hostChar x = true := by
  match g with
  | [] => simp [tldOk] at h
  | c :: rest =>
    simp only [tldOk] at h
    intro x hx
    rcases hr : rest.reverse with _ | ⟨lst, midRev⟩
    · rw [hr] at h; simp at h
    · rw [hr] at h
      simp only [Bool.and_eq_true] at h
      rcases List.mem_cons.mp hx with hxc | hrest
      · subst hxc; exact hostChar_of_alnumA h.1.1.1
      · have : x ∈ rest.reverse := List.mem_reverse.mpr hrest
        rw [hr] at this
        rcases List.mem_cons.mp this with hxl | hxm
        · subst hxl
          exact hostChar_of_alnumA (by simp [isAlnumA, h.1.1.2])
        · exact (List.all_eq_true.mp h.1.2) x hxm

theorem tldOk_has_alpha {g : List Char} (h : tldOk g = true) :
    ∃ x ∈ g, isAlphaA x = true := by
  match g with
  | [] => simp [tldOk] at h
  | c :: rest =>
    simp only [tldOk] at h
    rcases hr : rest.reverse with _ | ⟨lst, midRev⟩
    · rw [hr] at h; simp at h
    · rw [hr] at h
      simp only [Bool.and_eq_true] at h
      refine ⟨lst, ?_, h.1.1.2⟩
      have : lst ∈ rest.reverse := by rw [hr]; exact List.mem_cons_self _ _
      exact List.mem_cons_of_mem _ (List.mem_reverse.mp this)

theorem domainMatch_chars {l : List Char} (h : domainMatch l = true) :
    ∀ x ∈ l, x = '.' ∨ hostChar x = true := by
  intro x hx
  rcases mem_splitCh_of_mem '.' hx with hdot | ⟨g, hg, hxg⟩
  · left; exact hdot
  · right
    simp only [domainMatch] at h
    rcases hrev : (splitCh '.' l).reverse with _ | ⟨tld, initRev⟩
    · rw [hrev] at h; simp at h
    · rw [hrev] at h
      simp only [Bool.and_eq_true] at h
      have hgrev : g ∈ (splitCh '.' l).reverse := List.mem_reverse.mpr hg
      rw [hrev] at hgrev
      rcases List.mem_cons.mp hgrev with hgt | hgi
      · subst hgt; exact tldOk_chars h.1.1 x hxg
      · exact labelOk_chars ((List.all_eq_true.mp h.2) g hgi) x hxg

theorem domainMatch_not_ipv4 {l : List Char} (h : domainMatch l = true) :
    ipv4Match l = false := by
  by_contra h4
  rw [Bool.not_eq_false] at h4
  simp only [domainMatch] at h
  rcases hrev : (splitCh '.' l).reverse with _ | ⟨tld, initRev⟩
  · rw [hrev] at h; simp at h
  · rw [hrev] at h
    simp only [Bool.and_eq_true] at h
    obtain ⟨x, hxg, hxa⟩ := tldOk_has_alpha h.1.1
    have htld : tld ∈ splitCh '.' l := by
      have : tld ∈ (splitCh '.' l).reverse := by rw [hrev]; exact List.mem_cons_self _ _
      exact List.mem_reverse.mp this
    simp only [ipv4Match, Bool.and_eq_true] at h4
    have := (List.all_eq_true.mp h4.2) tld htld
    simp only [Bool.and_eq_true] at this
    have hdig := (List.all_eq_true.mp this.1.2) x hxg
    rw [not_digitA_of_alphaA hxa] at hdig
    exact Bool.false_ne_true hdig

theorem ipv6Match_has_colon {l : List Char} (h : ipv6Match l = true) : ':' ∈ l := by
  apply mem_of_splitCh_length
  unfold ipv6Match at h
  rcases hgs : splitCh ':' l with _ | ⟨g₁, _ | ⟨g₂, rest⟩⟩
  · exact absurd hgs (splitCh_ne_nil ':' l)
  · rw [hgs] at h; simp at h
  · simp

theorem hostChar_colon : hostChar ':' = false := by decide

theorem domainMatch_not_ipv6 {l : List Char} (h : domainMatch l = true) :
    ipv6Match l = false := by
  by_contra h6
  rw [Bool.not_eq_false] at h6
  rcases domainMatch_chars h ':' (ipv6Match_has_colon h6) with hdot | hhost
  · simp at hdot
  · rw [hostChar_colon] at hhost
    exact Bool.false_ne_true hhost

theorem ipv4Match_chars {l : List Char} (h : ipv4Match l = true) :
    ∀ x ∈ l, x = '.' ∨ isDigitA x = true := by
  intro x hx
  rcases mem_splitCh_of_mem '.' hx with hdot | ⟨g, hg, hxg⟩
  · left; exact hdot
  · right
    simp only [ipv4Match, Bool.and_eq_true] at h
    have := (List.all_eq_true.mp h.2) g hg
    simp only [Bool.and_eq_true] at this
    exact (List.all_eq_true.mp this.1.2) x hxg

theorem ipv6Match_chars {l : List Char} (h : ipv6Match l = true) :
    ∀ x ∈ l, x = ':' ∨ hexChar x = true := by
  intro x hx
  rcases mem_splitCh_of_mem ':' hx with hcol | ⟨g, hg, hxg⟩
  · left; exact hcol
  · right
    unfold ipv6Match at h
    rcases hgs : splitCh ':' l with _ | ⟨g₁, _ | ⟨g₂, rest⟩⟩
    · exact absurd hgs (splitCh_ne_nil ':' l)
    · rw [hgs] at h; simp at h
    · rw [hgs] at h hg
      simp only [ipv6Groups, Bool.and_eq_true] at h
      have hne : g ∈ (g₁ :: g₂ :: rest).filter (fun g => !g.isEmpty) := by
        rw [List.mem_filter]
        refine ⟨hg, ?_⟩
        rcases g with _ | ⟨c, cs⟩
        · simp at hxg
        · simp
      have := (List.all_eq_true.mp h.1) g hne
      simp only [hexGroupOk, Bool.and_eq_true] at this
      exact (List.all_eq_true.mp this.2) x hxg

theorem emailMatch_of_no_at {l : List Char} (h : '@' ∉ l) : emailMatch l = false := by
  simp only [emailMatch]
  rw [splitCh_of_not_mem h]

theorem ipv4Match_no_at {l : List Char} (h : ipv4Match l = true) : '@' ∉ l := by
  intro hmem
  rcases ipv4Match_chars h '@' hmem with hdot | hdig
  · simp at hdot
  · simp [isDigitA] at hdig

theorem ipv6Match_no_at {l : List Char} (h : ipv6Match l = true) : '@' ∉ l := by
  intro hmem
  rcases ipv6Match_chars h '@' hmem with hcol | hhex
  · simp at hcol
  · simp [hexChar, isDigitA] at hhex

theorem pySplitWsAux_ne_nil (acc : List Char) (hacc : acc ≠ []) (cs : List Char) :
    pySplitWsAux acc cs ≠ [] := by
  induction cs generalizing acc with
  | nil =>
    rcases acc with _ | ⟨a, as⟩
    · exact absurd rfl hacc
    · simp [pySplitWsAux]
  | cons c cs ih =>
    simp only [pySplitWsAux]
    by_cases hws : pyWs c = true
    · rw [if_pos hws]
      rcases acc with _ | ⟨a, as⟩
      · exact absurd rfl hacc
      · rw [if_neg (by simp)]
        simp
    · rw [if_neg hws]
      exact ih _ (by simp)

theorem dropWhile_head_false {p : Char → Bool} {l : List Char} {c : Char} {rest : List Char}
    (h : l.dropWhile p = c :: rest) : p c = false := by
  induction l with
  | nil => simp at h
  | cons x xs ih =>
    rw [List.dropWhile_cons] at h
    by_cases hp : p x = true
    · rw [if_pos hp] at h
      exact ih h
    · rw [if_neg hp] at h
      rw [List.cons.injEq] at h
      rw [← h.1]
      exact Bool.eq_false_iff.mpr hp

theorem pyStripL_head_not_ws {m : List Char} {c : Char} {rest : List Char}
    (h : pyStripL m = c :: rest) : pyWs c = false := by
  simp only [pyStripL] at h
  have hd : List.dropWhile pyWs (m.dropWhile pyWs).reverse = rest.reverse ++ [c] := by
    have := congrArg List.reverse h
    simpa using this
  have hsplit :
      List.takeWhile pyWs (m.dropWhile pyWs).reverse ++
        List.dropWhile pyWs (m.dropWhile pyWs).reverse = (m.dropWhile pyWs).reverse :=
    List.takeWhile_append_dropWhile pyWs (m.dropWhile pyWs).reverse
  rw [hd] at hsplit
  have haeq : m.dropWhile pyWs =
      c :: (rest ++ (List.takeWhile pyWs (m.dropWhile pyWs).reverse).reverse) := by
    have := congrArg List.reverse hsplit
    simpa using this.symm
  exact dropWhile_head_false haeq

theorem pySplitWs_length_of_ne_nil {l : List Char} (hstrip : ∃ m, pyStripL m = l)
    (hne : l ≠ []) : 1 ≤ (pySplitWs l).length := by
  rcases hl : l with _ | ⟨c, rest⟩
  · exact absurd hl hne
  · obtain ⟨m, hm⟩ := hstrip
    rw [hl] at hm
    have hc : pyWs c = false := pyStripL_head_not_ws hm
    simp only [pySplitWs, pySplitWsAux, hc]
    rw [if_neg (by simp [hc])]
    have hne2 := pySplitWsAux_ne_nil [c] (by simp) rest
    rcases hres : pySplitWsAux [c] rest with _ | ⟨w, ws⟩
    · exact absurd hres hne2
    · simp

/-- On any trimmed input, the source-ordered test chain agrees with the
spec-ordered test chain: the only transposition (domain before IP) is
unobservable because no string matches both pattern families. -/
theorem classifyCore_eq_spec (l : List Char) (hstrip : ∃ m, pyStripL m = l) :
    classifyCore l = classifySpecCore l := by
  unfold classifyCore classifySpecCore
  by_cases he : emailMatch l = true
  · simp [he]
  · by_cases hd : domainMatch l = true
    · simp [he, hd, domainMatch_not_ipv4 hd, domainMatch_not_ipv6 hd]
    · by_cases hip : (ipv4Match l || ipv6Match l) = true
      · simp [he, hd, hip]
      · by_cases hp : phoneMatch l = true
        · simp [he, hd, hip, hp]
        · by_cases hu : usernameMatch l = true
          · simp [he, hd, hip, hp, hu]
          · rcases hl : l with _ | ⟨c, cs⟩
            · decide
            · rw [← hl]
              have h1 : 1 ≤ (pySplitWs l).length :=
                pySplitWs_length_of_ne_nil hstrip (by rw [hl]; simp)
              have h2 : (!l.isEmpty) = true := by rw [hl]; simp
              simp [he, hd, hip, hp, hu, h1, h2]

/-- C1: for every input string, the classifier tests the trimmed input
against the email pattern, the IP-address patterns (v4/v6), the
registrable-domain pattern, the phone pattern and the username pattern with
the first match winning, falls back to a free-text name for any remaining
non-empty string, and is invalid exactly on empty (after trimming) input —
i.e. the source's classifier agrees with the spec-ordered classifier
`classifySpec` on every input (the source tests the domain pattern before
the IP patterns, but no string matches both, so the two orders coincide). -/
theorem C1_classifier_precedence (q : String) : validate_and_identify q = classifySpec q := by
  by_cases hq : q = ""
  · subst hq; decide
  · unfold validate_and_identify classifySpec
    rw [if_neg hq]
    exact classifyCore_eq_spec _ ⟨q.toList, rfl⟩

/-- Witness for C1 (the universally quantified statement has no side
hypotheses, but it is exercised here on the spec's scenario inputs). -/
theorem C1_witness :
    validate_and_identify "jane.doe@example.com" = classifySpec "jane.doe@example.com" ∧
    validate_and_identify "8.8.8.8" = classifySpec "8.8.8.8" := by
  exact ⟨C1_classifier_precedence "jane.doe@example.com", C1_classifier_precedence "8.8.8.8"⟩

/-- C7: every valid dotted-quad IPv4 literal and every valid colon-grouped
IPv6 literal is classified as semantic type `ip` with field
`{ip: the literal}`, independent of whether any other pattern (such as the
domain pattern) also matches: the email pattern cannot match (no `@`
occurs in an IP literal), and the domain pattern provably matches no IP
literal, so the `ip` branch is always reached. -/
theorem C7_ip_literals_classified_ip (q : String)
    (h : ipv4Match (pyStripL q.toList) = true ∨ ipv6Match (pyStripL q.toList) = true) :
    validate_and_identify q =
      (true, InputType.ip, [("ip", (pyStripL q.toList).asString)]) := by
  have hqne : q ≠ "" := by
    intro hq
    subst hq
    rcases h with h | h
    · rw [show pyStripL "".toList = [] from rfl] at h
      simp [ipv4Match, splitCh] at h
    · rw [show pyStripL "".toList = [] from rfl] at h
      have := ipv6Match_has_colon h
      simp at this
  unfold validate_and_identify
  rw [if_neg hqne]
  set l := pyStripL q.toList with hl
  have hat : '@' ∉ l := by
    rcases h with h | h
    · exact ipv4Match_no_at h
    · exact ipv6Match_no_at h
  have he : emailMatch l = false := emailMatch_of_no_at hat
  have hd : domainMatch l = false := by
    by_contra hdm
    rw [Bool.not_eq_false] at hdm
    rcases h with h | h
    · rw [domainMatch_not_ipv4 hdm] at h
      exact Bool.false_ne_true h
    · rw [domainMatch_not_ipv6 hdm] at h
      exact Bool.false_ne_true h
  have hip : (ipv4Match l || ipv6Match l) = true := by
    rcases h with h | h
    · simp [h]
    · simp [h]
  simp [classifyCore, he, hd, hip]

/-- Witness for C7: both the dotted-quad scenario input `"8.8.8.8"` from the
spec and a colon-grouped IPv6 literal are classified as `ip`. -/
theorem C7_witness :
    (ipv4Match (pyStripL "8.8.8.8".toList) = true ∨
      ipv6Match (pyStripL "8.8.8.8".toList) = true) ∧
    validate_and_identify "8.8.8.8" = (true, InputType.ip, [("ip", "8.8.8.8")]) ∧
    (ipv4Match (pyStripL "2001:db8::1".toList) = true ∨
      ipv6Match (pyStripL "2001:db8::1".toList) = true) ∧
    validate_and_identify "2001:db8::1" = (true, InputType.ip, [("ip", "2001:db8::1")]) := by
  refine ⟨Or.inl (by decide), ?_, Or.inr (by decide), ?_⟩
  · exact (C7_ip_literals_classified_ip "8.8.8.8" (Or.inl (by decide))).trans (by decide)
  · exact (C7_ip_literals_classified_ip "2001:db8::1" (Or.inr (by decide))).trans (by decide)

/-! ## Lemmas about the monadic embedding -/

theorem bind_ok_iff {α β : Type} {x : PyM α} {f : α → PyM β} {b : β} :
    (x >>= f) = .ok b ↔ ∃ a, x = .ok a ∧ f a = .ok b := by
  cases x with
  | ok a =>
    constructor
    · intro h
      exact ⟨a, rfl, h⟩
    · rintro ⟨a', ha, hf⟩
      cases ha
      exact hf
  | error e =>
    constructor
    · intro h
      exact Except.noConfusion h
    · rintro ⟨a', ha, -⟩
      exact Except.noConfusion ha

theorem ok_inj {α : Type} {a b : α} (h : (Except.ok a : PyM α) = .ok b) : a = b := by
  cases h
  rfl

theorem catAppend_keys (cat : Categorized) (n : String) (it : Item) :
    (catAppend cat n it).map Prod.fst = cat.map Prod.fst := by
  unfold catAppend
  induction cat with
  | nil => rfl
  | cons kv rest ih =>
    rcases kv with ⟨k, v⟩
    by_cases h : k = n
    · simp [h, ih]
    · simp [h, ih]

/-! ## C2: the request pipeline's aggregation keys never reach the parser -/

/-- C2: a combined-results mapping keyed exactly as `routes.search`
aggregates it (`search_results`, `api_results`, `whois_results`,
`web_content_results`) makes every category of `parse_and_categorize`
empty, whatever the payloads are, because the parser reads only the keys
`whois`, `search_engines` and `api_sources`. -/
theorem C2_routes_keys_never_parsed (v₁ v₂ v₃ v₄ : PyVal) :
    parse_and_categorize (.dict [("search_results", v₁), ("api_results", v₂),
      ("whois_results", v₃), ("web_content_results", v₄)]) = .ok emptyCategorized := rfl

/-! ## C3: the closed category-name set -/

/-- C3 counterexample: the categories the parser emits are
`contact_info`, `social_profiles`, `domain_info`, `breach_data`,
`location_data`, `related_links`, `raw_data` — `contact_info` appears in
the output for the empty input and is not in the spec's claimed set, and
none of the spec's names (e.g. `emails`) appears. -/
theorem C3_counterexample :
    parse_and_categorize (.dict []) = .ok emptyCategorized ∧
    emptyCategorized.map Prod.fst =
      ["contact_info", "social_profiles", "domain_info", "breach_data",
       "location_data", "related_links", "raw_data"] ∧
    "contact_info" ∉ specCategoryNames ∧
    "emails" ∉ emptyCategorized.map Prod.fst :=
  ⟨rfl, rfl, by decide, by decide⟩

/-! ## C5: summarize∘categorize is deterministic -/

/-- C5: computing `summarize(categorize(X))` twice yields byte-identical
results — the embedded pipeline is a pure function of its input (the
source functions read no state besides their arguments), so the two runs
are one and the same value. -/
theorem C5_summarize_categorize_idempotent (X : PyVal) :
    summarizeCategorized X = summarizeCategorized X := rfl

/-! ## C10: the all-empty summary -/

/-- C10 counterexample: on an all-empty categorized result the summary is
not a single line — `generate_summary` emits two lines (the
no-significant-information line and a suggestion line) joined by the
`<br>` separator. -/
theorem C10_counterexample :
    generate_summary emptyCategorized =
      "• No significant information found for the provided query<br>• Consider trying a different query or enabling additional data sources" ∧
    strContainsStr (generate_summary emptyCategorized) "<br>" = true :=
  ⟨rfl, rfl⟩

/-- C10 (amended): whenever every category `generate_summary` reads is
empty, it emits exactly two lines joined by `<br>`: the
"No significant information found" line and the "Consider trying a
different query" suggestion line. -/
theorem C10_amended (cr : Categorized)
    (h₁ : catGet cr "contact_info" = []) (h₂ : catGet cr "social_profiles" = [])
    (h₃ : catGet cr "domain_info" = []) (h₄ : catGet cr "breach_data" = [])
    (h₅ : catGet cr "location_data" = []) (h₆ : catGet cr "related_links" = []) :
    generate_summary cr =
      "• No significant information found for the provided query<br>• Consider trying a different query or enabling additional data sources" := by
  unfold generate_summary
  rw [h₁, h₂, h₃, h₄, h₅, h₆]
  rfl

/-- Witness for C10: the amended theorem applied to the empty categorized
result. -/
theorem C10_witness :
    generate_summary emptyCategorized =
      "• No significant information found for the provided query<br>• Consider trying a different query or enabling additional data sources" :=
  C10_amended emptyCategorized rfl rfl rfl rfl rfl rfl

/-! ## C6: breach lookup distinguishes 404 from transport failure -/

/-- C6: with a configured key, an HTTP 404 response makes
`fetch_haveibeenpwned` return the empty list (a successful result with
zero entities), while a transport failure returns an error result, never
the empty list. -/
theorem C6_hibp_404_empty (key account : String) (body : Except Unit PyVal)
    (hkey : key.isEmpty = false) :
    fetch_haveibeenpwned key account (.resp 404 body) = .list [] ∧
    fetch_haveibeenpwned key account .transportExn ≠ .list [] := by
  unfold fetch_haveibeenpwned
  rw [hkey]
  constructor
  · rfl
  · intro h
    simp only [Bool.false_eq_true, if_false, hibpTry, awaitGet] at h
    exact List.noConfusion (congrArg (fun v => match v with
      | PyVal.list xs => xs
      | _ => []) h)

/-- Witness for C6: concrete key, account and body. -/
theorem C6_witness :
    fetch_haveibeenpwned "k" "jane@example.com" (.resp 404 (.ok (.list []))) = .list [] ∧
    fetch_haveibeenpwned "k" "jane@example.com" .transportExn ≠ .list [] :=
  C6_hibp_404_empty "k" "jane@example.com" (.ok (.list [])) rfl

/-! ## C8: missing credentials degrade to explicit error results -/

/-- C8: each API adapter whose key credential is absent (the config default
is the empty string, which is falsy) returns its literal "not set" error
result; the modelled fetches are total functions, so no exception escapes
and only the one adapter degrades. -/
theorem C8_not_configured (k₁ k₂ k₃ ip de acct : String)
    (o₁ o₂ o₃ : HttpOutcome)
    (h₁ : k₁.isEmpty = true) (h₂ : k₂.isEmpty = true) (h₃ : k₃.isEmpty = true) :
    fetch_ipinfo k₁ ip o₁ = .dict [("error", .str "IPinfo API key not set")] ∧
    fetch_hunter_email_info k₂ de o₂ =
      .dict [("error", .str "Hunter.io API key not set")] ∧
    fetch_haveibeenpwned k₃ acct o₃ =
      .list [.dict [("error", .str "HaveIBeenPwned API key not set")]] := by
  unfold fetch_ipinfo fetch_hunter_email_info fetch_haveibeenpwned
  rw [h₁, h₂, h₃]
  exact ⟨rfl, rfl, rfl⟩

/-- Witness for C8: the empty-string keys of an unconfigured environment. -/
theorem C8_witness :
    fetch_ipinfo "" "8.8.8.8" .transportExn =
      .dict [("error", .str "IPinfo API key not set")] ∧
    fetch_hunter_email_info "" "example.com" .transportExn =
      .dict [("error", .str "Hunter.io API key not set")] ∧
    fetch_haveibeenpwned "" "jane@example.com" .transportExn =
      .list [.dict [("error", .str "HaveIBeenPwned API key not set")]] :=
  C8_not_configured "" "" "" "8.8.8.8" "example.com" "jane@example.com"
    .transportExn .transportExn .transportExn rfl rfl rfl

/-! ## C9 counterexample: repeated non-name-server keys overwrite -/

/-- C9 counterexample: two `Status:` lines do not accumulate into an
ordered list — the parsed value is the second line's value alone, the
earlier value having been overwritten (only name-server lines
accumulate). -/
theorem C9_counterexample :
    wvalFind (parseRawWhois "Status: a\nStatus: b") "status" = some (.s "b") ∧
    some (WVal.s "b") ≠ some (WVal.l ["a", "b"]) :=
  ⟨rfl, by decide⟩

/-! ## C4: deduplication -/

theorem removeDupAux_sublist (seen : List String) (items : List Item) :
    (removeDupAux seen items).Sublist items := by
  induction items generalizing seen with
  | nil => simp [removeDupAux]
  | cons it rest ih =>
    simp only [removeDupAux]
    by_cases hc : itemSig it ∈ seen
    · rw [if_pos hc]
      exact List.Sublist.cons it (ih seen)
    · rw [if_neg hc]
      exact List.Sublist.cons₂ it (ih (itemSig it :: seen))

theorem removeDupAux_fresh (seen : List String) (items : List Item) :
    ∀ y ∈ removeDupAux seen items, itemSig y ∉ seen := by
  induction items generalizing seen with
  | nil => simp [removeDupAux]
  | cons it rest ih =>
    intro y hy
    simp only [removeDupAux] at hy
    by_cases hc : itemSig it ∈ seen
    · rw [if_pos hc] at hy
      exact ih seen y hy
    · rw [if_neg hc] at hy
      rcases List.mem_cons.mp hy with h | h
      · subst h
        exact hc
      · intro hmem
        exact ih (itemSig it :: seen) y h (List.mem_cons_of_mem _ hmem)

theorem removeDupAux_pairwise (seen : List String) (items : List Item) :
    (removeDupAux seen items).Pairwise (fun a b => itemSig a ≠ itemSig b) := by
  induction items generalizing seen with
  | nil => simp [removeDupAux]
  | cons it rest ih =>
    simp only [removeDupAux]
    by_cases hc : itemSig it ∈ seen
    · rw [if_pos hc]
      exact ih seen
    · rw [if_neg hc]
      refine List.Pairwise.cons ?_ (ih _)
      intro y hy heq
      exact removeDupAux_fresh _ _ y hy (by rw [← heq]; exact List.mem_cons_self _ _)

theorem removeDupAux_covers (seen : List String) (items : List Item) :
    ∀ x ∈ items, itemSig x ∈ seen ∨ ∃ y ∈ removeDupAux seen items, itemSig y = itemSig x := by
  induction items generalizing seen with
  | nil => simp
  | cons it rest ih =>
    intro x hx
    simp only [removeDupAux]
    by_cases hc : itemSig it ∈ seen
    · rw [if_pos hc]
      rcases List.mem_cons.mp hx with h | h
      · subst h
        exact Or.inl hc
      · exact ih seen x h
    · rw [if_neg hc]
      rcases List.mem_cons.mp hx with h | h
      · subst h
        exact Or.inr ⟨x, List.mem_cons_self _ _, rfl⟩
      · rcases ih (itemSig it :: seen) x h with hin | ⟨y, hy, hsig⟩
        · rcases List.mem_cons.mp hin with h1 | h2
          · exact Or.inr ⟨it, List.mem_cons_self _ _, h1.symm⟩
          · exact Or.inl h2
        · exact Or.inr ⟨y, List.mem_cons_of_mem _ hy, hsig⟩

theorem removeDupAux_first (seen : List String) (items : List Item) :
    ∀ y ∈ removeDupAux seen items, ∃ pre post, items = pre ++ y :: post ∧
      ∀ z ∈ pre, itemSig z ≠ itemSig y ∨ itemSig z ∈ seen := by
  induction items generalizing seen with
  | nil => simp [removeDupAux]
  | cons it rest ih =>
    intro y hy
    simp only [removeDupAux] at hy
    by_cases hc : itemSig it ∈ seen
    · rw [if_pos hc] at hy
      obtain ⟨pre, post, heq, hpre⟩ := ih seen y hy
      refine ⟨it :: pre, post, by rw [heq, List.cons_append], ?_⟩
      intro z hz
      rcases List.mem_cons.mp hz with h1 | h2
      · subst h1
        exact Or.inr hc
      · exact hpre z h2
    · rw [if_neg hc] at hy
      rcases List.mem_cons.mp hy with h | h
      · subst h
        exact ⟨[], rest, rfl, by simp⟩
      · obtain ⟨pre, post, heq, hpre⟩ := ih (itemSig it :: seen) y h
        have hyfresh := removeDupAux_fresh (itemSig it :: seen) rest y h
        refine ⟨it :: pre, post, by rw [heq, List.cons_append], ?_⟩
        intro z hz
        rcases List.mem_cons.mp hz with h1 | h2
        · subst h1
          refine Or.inl fun heq2 => ?_
          exact hyfresh (by rw [← heq2]; exact List.mem_cons_self _ _)
        · rcases hpre z h2 with hne | hin
          · exact Or.inl hne
          · rcases List.mem_cons.mp hin with he | hs
            · refine Or.inl fun heq2 => ?_
              exact hyfresh (by rw [← heq2, he]; exact List.mem_cons_self _ _)
            · exact Or.inr hs

/-- C4 (amended): `remove_duplicates` deduplicates within a category by the
content signature (first 100 characters of the item's content string, or of
the `str(...)` serialization of list content) — not by the spec's
`title|url` / `name|email` fingerprints.  Any two entities sharing a
signature (whatever their provenance) collapse to the first occurrence in
arrival order: the output is an order-preserving sublist with pairwise
distinct signatures, every input signature is represented, and each kept
entity is the first of its signature. -/
theorem C4_amended (items : List Item) :
    (remove_duplicates items).Sublist items ∧
    (remove_duplicates items).Pairwise (fun a b => itemSig a ≠ itemSig b) ∧
    (∀ x ∈ items, ∃ y ∈ remove_duplicates items, itemSig y = itemSig x) ∧
    (∀ y ∈ remove_duplicates items, ∃ pre post, items = pre ++ y :: post ∧
      ∀ z ∈ pre, itemSig z ≠ itemSig y) := by
  refine ⟨removeDupAux_sublist [] items, removeDupAux_pairwise [] items, ?_, ?_⟩
  · intro x hx
    rcases removeDupAux_covers [] items x hx with h | h
    · simp at h
    · exact h
  · intro y hy
    obtain ⟨pre, post, heq, hpre⟩ := removeDupAux_first [] items y hy
    refine ⟨pre, post, heq, fun z hz => ?_⟩
    rcases hpre z hz with h | h
    · exact h
    · simp at h

/-- Witness for C4: the duplicate pair collapses to its first occurrence
and the output is a sublist of the input. -/
theorem C4_witness :
    remove_duplicates demoItems = [demoItemA] ∧
    (remove_duplicates demoItems).Sublist demoItems :=
  ⟨rfl, (C4_amended demoItems).1⟩

/-- C4 counterexample: two search results with the identical spec
fingerprint `title|url` (and different snippets) produce two entities in
the `contact_info` category — `categorize` does not deduplicate by
`title|url`, so "exactly one entity appears" fails. -/
theorem C4_counterexample :
    specSearchFingerprint searchResultA = specSearchFingerprint searchResultB ∧
    (parse_and_categorize demoResults).toOption.map
      (fun c => (catGet c "contact_info").length) = some 2 :=
  ⟨rfl, rfl⟩

/-! ## C3 (amended): the category keys of the output are always the
source's fixed seven, in order -/

theorem pure_inj {α : Type} {a b : α} (h : (pure a : PyM α) = .ok b) : a = b :=
  ok_inj h

theorem iteM_true {α : Type} (a b : α) : iteM true a b = a := rfl

theorem iteM_false {α : Type} (a b : α) : iteM false a b = b := rfl

theorem keys_whoisDomainBlock (dd : PyVal) (cat out : Categorized)
    (h : whoisDomainBlock dd cat = .ok out) : out.map Prod.fst = cat.map Prod.fst := by
  unfold whoisDomainBlock at h
  obtain ⟨hasDn, -, h⟩ := bind_ok_iff.mp h
  obtain ⟨cat₁, hcat₁, h⟩ := bind_ok_iff.mp h
  have k₁ : cat₁.map Prod.fst = cat.map Prod.fst := by
    cases hasDn with
    | false =>
      rw [iteM_false] at hcat₁
      rw [← pure_inj hcat₁]
    | true =>
      rw [iteM_true] at hcat₁
      obtain ⟨dn, -, hcat₁⟩ := bind_ok_iff.mp hcat₁
      obtain ⟨content, -, hcat₁⟩ := bind_ok_iff.mp hcat₁
      rw [← pure_inj hcat₁, catAppend_keys]
  obtain ⟨ci, -, h⟩ := bind_ok_iff.mp h
  by_cases hemp : ci.isEmpty = true
  · rw [if_pos hemp] at h
    rw [← pure_inj h]
    exact k₁
  · rw [if_neg hemp] at h
    obtain ⟨content, -, h⟩ := bind_ok_iff.mp h
    rw [← pure_inj h, catAppend_keys]
    exact k₁

theorem keys_whoisIpBlock (ip_data : PyVal) (cat out : Categorized)
    (h : whoisIpBlock ip_data cat = .ok out) : out.map Prod.fst = cat.map Prod.fst := by
  unfold whoisIpBlock at h
  obtain ⟨q, -, h⟩ := bind_ok_iff.mp h
  obtain ⟨ipLabel, -, h⟩ := bind_ok_iff.mp h
  obtain ⟨content, -, h⟩ := bind_ok_iff.mp h
  obtain ⟨loc, -, h⟩ := bind_ok_iff.mp h
  by_cases hemp : loc.isEmpty = true
  · rw [if_pos hemp] at h
    rw [← ok_inj h, catAppend_keys]
  · rw [if_neg hemp] at h
    obtain ⟨c2, -, h⟩ := bind_ok_iff.mp h
    rw [← ok_inj h, catAppend_keys, catAppend_keys]

theorem keys_processWhois (results : PyVal) (cat out : Categorized)
    (h : processWhois results cat = .ok out) : out.map Prod.fst = cat.map Prod.fst := by
  unfold processWhois at h
  obtain ⟨hasWhois, -, h⟩ := bind_ok_iff.mp h
  cases hasWhois with
  | false =>
    rw [Bool.not_false, if_pos rfl] at h
    rw [← ok_inj h]
  | true =>
    rw [Bool.not_true, if_neg Bool.false_ne_true] at h
    obtain ⟨wd, -, h⟩ := bind_ok_iff.mp h
    obtain ⟨hasDomain, -, h⟩ := bind_ok_iff.mp h
    obtain ⟨cat₁, hcat₁, h⟩ := bind_ok_iff.mp h
    have k₁ : cat₁.map Prod.fst = cat.map Prod.fst := by
      cases hasDomain with
      | false =>
        rw [iteM_false] at hcat₁
        rw [← pure_inj hcat₁]
      | true =>
        rw [iteM_true] at hcat₁
        obtain ⟨dd, -, hcat₁⟩ := bind_ok_iff.mp hcat₁
        exact keys_whoisDomainBlock dd cat cat₁ hcat₁
    obtain ⟨hasIp, -, h⟩ := bind_ok_iff.mp h
    cases hasIp with
    | false =>
      rw [Bool.not_false, if_pos rfl] at h
      rw [← ok_inj h]
      exact k₁
    | true =>
      rw [Bool.not_true, if_neg Bool.false_ne_true] at h
      obtain ⟨ip_data, -, h⟩ := bind_ok_iff.mp h
      rw [keys_whoisIpBlock ip_data cat₁ out h]
      exact k₁

theorem keys_processResult (src : String) (cat : Categorized) (links : List String)
    (r : PyVal) (out : Categorized × List String)
    (h : processResult src cat links r = .ok out) :
    out.1.map Prod.fst = cat.map Prod.fst := by
  unfold processResult at h
  obtain ⟨t, -, h⟩ := bind_ok_iff.mp h
  obtain ⟨u, -, h⟩ := bind_ok_iff.mp h
  obtain ⟨tLow, -, h⟩ := bind_ok_iff.mp h
  obtain ⟨contactHit, -, h⟩ := bind_ok_iff.mp h
  obtain ⟨cat₁, hcat₁, h⟩ := bind_ok_iff.mp h
  have k₁ : cat₁.map Prod.fst = cat.map Prod.fst := by
    cases contactHit with
    | false =>
      rw [iteM_false] at hcat₁
      rw [← pure_inj hcat₁]
    | true =>
      rw [iteM_true] at hcat₁
      obtain ⟨sn, -, hcat₁⟩ := bind_ok_iff.mp hcat₁
      obtain ⟨u2, -, hcat₁⟩ := bind_ok_iff.mp hcat₁
      rw [← pure_inj hcat₁, catAppend_keys]
  obtain ⟨socialHit, -, h⟩ := bind_ok_iff.mp h
  cases socialHit with
  | false =>
    rw [if_neg Bool.false_ne_true] at h
    rw [show out = (cat₁, links ++ [strOfVal t ++ " - " ++ strOfVal u]) from (ok_inj h).symm]
    exact k₁
  | true =>
    rw [if_pos rfl] at h
    obtain ⟨sn, -, h⟩ := bind_ok_iff.mp h
    obtain ⟨u3, -, h⟩ := bind_ok_iff.mp h
    have hout := ok_inj h
    rw [← hout, catAppend_keys]
    exact k₁

theorem keys_processResults (src : String) (items : List PyVal) :
    ∀ cat links out, processResults src cat links items = .ok out →
      out.1.map Prod.fst = cat.map Prod.fst := by
  induction items with
  | nil =>
    intro cat links out h
    unfold processResults at h
    rw [← ok_inj h]
  | cons r rest ih =>
    intro cat links out h
    unfold processResults at h
    obtain ⟨p, h₁, h⟩ := bind_ok_iff.mp h
    rw [ih p.1 p.2 out h, keys_processResult src cat links r p h₁]

theorem keys_processEngine (engineKey src relTitle : String) (sr : PyVal)
    (cat out : Categorized) (h : processEngine engineKey src relTitle sr cat = .ok out) :
    out.map Prod.fst = cat.map Prod.fst := by
  unfold processEngine at h
  obtain ⟨has, -, h⟩ := bind_ok_iff.mp h
  cases has with
  | false =>
    rw [Bool.not_false, if_pos rfl] at h
    rw [← ok_inj h]
  | true =>
    rw [Bool.not_true, if_neg Bool.false_ne_true] at h
    obtain ⟨data, -, h⟩ := bind_ok_iff.mp h
    obtain ⟨items, -, h⟩ := bind_ok_iff.mp h
    obtain ⟨p, h₁, h⟩ := bind_ok_iff.mp h
    have k₁ := keys_processResults src items cat [] p h₁
    by_cases hemp : p.2.isEmpty = true
    · rw [if_pos hemp] at h
      rw [← ok_inj h]
      exact k₁
    · rw [if_neg hemp] at h
      rw [← ok_inj h, catAppend_keys]
      exact k₁

theorem keys_processSearch (results : PyVal) (cat out : Categorized)
    (h : processSearch results cat = .ok out) : out.map Prod.fst = cat.map Prod.fst := by
  unfold processSearch at h
  obtain ⟨has, -, h⟩ := bind_ok_iff.mp h
  cases has with
  | false =>
    rw [Bool.not_false, if_pos rfl] at h
    rw [← ok_inj h]
  | true =>
    rw [Bool.not_true, if_neg Bool.false_ne_true] at h
    obtain ⟨sr, -, h⟩ := bind_ok_iff.mp h
    obtain ⟨cat₁, h₁, h⟩ := bind_ok_iff.mp h
    rw [keys_processEngine _ _ _ sr cat₁ out h, keys_processEngine _ _ _ sr cat cat₁ h₁]

theorem keys_hunterDomainBlock (hunter : PyVal) (cat out : Categorized)
    (h : hunterDomainBlock hunter cat = .ok out) : out.map Prod.fst = cat.map Prod.fst := by
  unfold hunterDomainBlock at h
  obtain ⟨dv, -, h⟩ := bind_ok_iff.mp h
  obtain ⟨disp, -, h⟩ := bind_ok_iff.mp h
  obtain ⟨web, -, h⟩ := bind_ok_iff.mp h
  obtain ⟨pat, -, h⟩ := bind_ok_iff.mp h
  obtain ⟨dv2, -, h⟩ := bind_ok_iff.mp h
  obtain ⟨content, -, h⟩ := bind_ok_iff.mp h
  rw [← pure_inj h, catAppend_keys]

theorem keys_hunterEmailBlock (hunter : PyVal) (cat out : Categorized)
    (h : hunterEmailBlock hunter cat = .ok out) : out.map Prod.fst = cat.map Prod.fst := by
  unfold hunterEmailBlock at h
  obtain ⟨ev, -, h⟩ := bind_ok_iff.mp h
  obtain ⟨status, -, h⟩ := bind_ok_iff.mp h
  obtain ⟨disp, -, h⟩ := bind_ok_iff.mp h
  obtain ⟨web, -, h⟩ := bind_ok_iff.mp h
  obtain ⟨srcs, -, h⟩ := bind_ok_iff.mp h
  obtain ⟨n, -, h⟩ := bind_ok_iff.mp h
  obtain ⟨ev2, -, h⟩ := bind_ok_iff.mp h
  obtain ⟨content, -, h⟩ := bind_ok_iff.mp h
  rw [← pure_inj h, catAppend_keys]

theorem keys_hunterEmailsBlock (hunter : PyVal) (cat out : Categorized)
    (h : hunterEmailsBlock hunter cat = .ok out) : out.map Prod.fst = cat.map Prod.fst := by
  unfold hunterEmailsBlock at h
  obtain ⟨e, -, h⟩ := bind_ok_iff.mp h
  obtain ⟨entries, -, h⟩ := bind_ok_iff.mp h
  obtain ⟨emails, -, h⟩ := bind_ok_iff.mp h
  by_cases hemp : emails.isEmpty = true
  · rw [if_pos hemp] at h
    rw [← ok_inj h]
  · rw [if_neg hemp] at h
    obtain ⟨dflt, -, h⟩ := bind_ok_iff.mp h
    rw [← ok_inj h, catAppend_keys]

theorem keys_processHunter (api : PyVal) (cat out : Categorized)
    (h : processHunter api cat = .ok out) : out.map Prod.fst = cat.map Prod.fst := by
  unfold processHunter at h
  obtain ⟨hunter, -, h⟩ := bind_ok_iff.mp h
  obtain ⟨hasD, -, h⟩ := bind_ok_iff.mp h
  obtain ⟨cat₁, h₁, h⟩ := bind_ok_iff.mp h
  have k₁ : cat₁.map Prod.fst = cat.map Prod.fst := by
    cases hasD with
    | false =>
      rw [iteM_false] at h₁
      rw [← pure_inj h₁]
    | true =>
      rw [iteM_true] at h₁
      exact keys_hunterDomainBlock hunter cat cat₁ h₁
  obtain ⟨hasE, -, h⟩ := bind_ok_iff.mp h
  obtain ⟨cat₂, h₂, h⟩ := bind_ok_iff.mp h
  have k₂ : cat₂.map Prod.fst = cat₁.map Prod.fst := by
    cases hasE with
    | false =>
      rw [iteM_false] at h₂
      rw [← pure_inj h₂]
    | true =>
      rw [iteM_true] at h₂
      exact keys_hunterEmailBlock hunter cat₁ cat₂ h₂
  obtain ⟨hasEmails, -, h⟩ := bind_ok_iff.mp h
  obtain ⟨proceed, -, h⟩ := bind_ok_iff.mp h
  cases proceed with
  | false =>
    rw [Bool.not_false, if_pos rfl] at h
    rw [← ok_inj h, k₂, k₁]
  | true =>
    rw [Bool.not_true, if_neg Bool.false_ne_true] at h
    rw [keys_hunterEmailsBlock hunter cat₂ out h, k₂, k₁]

theorem keys_processHibp (api : PyVal) (cat out : Categorized)
    (h : processHibp api cat = .ok out) : out.map Prod.fst = cat.map Prod.fst := by
  unfold processHibp at h
  obtain ⟨hibp, -, h⟩ := bind_ok_iff.mp h
  obtain ⟨entries, -, h⟩ := bind_ok_iff.mp h
  obtain ⟨breaches, -, h⟩ := bind_ok_iff.mp h
  by_cases hemp : breaches.isEmpty = true
  · rw [if_pos hemp] at h
    rw [← ok_inj h]
  · rw [if_neg hemp] at h
    rw [← ok_inj h, catAppend_keys]

theorem keys_processApi (results : PyVal) (cat out : Categorized)
    (h : processApi results cat = .ok out) : out.map Prod.fst = cat.map Prod.fst := by
  unfold processApi at h
  obtain ⟨has, -, h⟩ := bind_ok_iff.mp h
  cases has with
  | false =>
    rw [Bool.not_false, if_pos rfl] at h
    rw [← ok_inj h]
  | true =>
    rw [Bool.not_true, if_neg Bool.false_ne_true] at h
    obtain ⟨api, -, h⟩ := bind_ok_iff.mp h
    obtain ⟨hasIpinfo, -, h⟩ := bind_ok_iff.mp h
    obtain ⟨cat₁, h₁, h⟩ := bind_ok_iff.mp h
    have k₁ : cat₁.map Prod.fst = cat.map Prod.fst := by
      cases hasIpinfo with
      | false =>
        rw [iteM_false] at h₁
        rw [← pure_inj h₁]
      | true =>
        rw [iteM_true] at h₁
        obtain ⟨ipinfo, -, h₁⟩ := bind_ok_iff.mp h₁
        obtain ⟨loc, -, h₁⟩ := bind_ok_iff.mp h₁
        by_cases hemp : loc.isEmpty = true
        · rw [if_pos hemp] at h₁
          rw [← pure_inj h₁]
        · rw [if_neg hemp] at h₁
          obtain ⟨ipv, -, h₁⟩ := bind_ok_iff.mp h₁
          obtain ⟨content, -, h₁⟩ := bind_ok_iff.mp h₁
          rw [← pure_inj h₁, catAppend_keys]
    obtain ⟨hasHunter, -, h⟩ := bind_ok_iff.mp h
    obtain ⟨cat₂, h₂, h⟩ := bind_ok_iff.mp h
    have k₂ : cat₂.map Prod.fst = cat₁.map Prod.fst := by
      cases hasHunter with
      | false =>
        rw [iteM_false] at h₂
        rw [← pure_inj h₂]
      | true =>
        rw [iteM_true] at h₂
        exact keys_processHunter api cat₁ cat₂ h₂
    obtain ⟨hasHibp, -, h⟩ := bind_ok_iff.mp h
    cases hasHibp with
    | false =>
      rw [if_neg Bool.false_ne_true] at h
      rw [← ok_inj h, k₂, k₁]
    | true =>
      rw [if_pos rfl] at h
      rw [keys_processHibp api cat₂ out h, k₂, k₁]

theorem map_dedup_keys (cat : Categorized) :
    (cat.map fun kv => (kv.1, remove_duplicates kv.2)).map Prod.fst = cat.map Prod.fst := by
  induction cat with
  | nil => rfl
  | cons kv rest ih => simp [ih]

/-- C3 (amended): the category names of every successful
`parse_and_categorize` output are a closed, predeclared set fixed by the
dict literal at the top of the function — `contact_info`,
`social_profiles`, `domain_info`, `breach_data`, `location_data`,
`related_links`, `raw_data`, in that order — never the spec's claimed set
`{emails, phone_numbers, social_links, addresses, business_info, leaks,
domains, ips, raw_results}`; no other category name ever appears. -/
theorem C3_amended (results : PyVal) (out : Categorized)
    (h : parse_and_categorize results = .ok out) :
    out.map Prod.fst =
      ["contact_info", "social_profiles", "domain_info", "breach_data",
       "location_data", "related_links", "raw_data"] := by
  unfold parse_and_categorize at h
  obtain ⟨c₁, h₁, h⟩ := bind_ok_iff.mp h
  obtain ⟨c₂, h₂, h⟩ := bind_ok_iff.mp h
  obtain ⟨c₃, h₃, h⟩ := bind_ok_iff.mp h
  rw [← ok_inj h, map_dedup_keys, keys_processApi results c₂ c₃ h₃,
    keys_processSearch results c₁ c₂ h₂, keys_processWhois results emptyCategorized c₁ h₁]
  rfl

/-- Witness for C3's amended theorem: the empty mapping produces exactly
the seven fixed categories. -/
theorem C3_witness :
    (parse_and_categorize (.dict [])).toOption.map (fun c => c.map Prod.fst) =
      some ["contact_info", "social_profiles", "domain_info", "breach_data",
        "location_data", "related_links", "raw_data"] := by
  rw [show parse_and_categorize (.dict []) = .ok emptyCategorized from rfl,
    Except.toOption, Option.map, C3_amended (.dict []) emptyCategorized rfl]

/-! ## C9 (amended): the raw WHOIS parser, declaratively -/

theorem nsValues_append (p q : List (String × String)) :
    nsValues (p ++ q) = nsValues p ++ nsValues q := by
  simp [nsValues, List.filterMap_append]

theorem lastVal_append (p q : List (String × String)) (k : String) :
    lastVal (p ++ q) k =
      match lastVal q k with
      | some w => some w
      | Option.none => lastVal p k := by
  induction p with
  | nil =>
    cases hq : lastVal q k with
    | none => simp [hq, lastVal]
    | some w => simp [hq]
  | cons kv rest ih =>
    rcases kv with ⟨k', v⟩
    rw [List.cons_append]
    have unf : ∀ (l : List (String × String)), lastVal ((k', v) :: l) k =
        (match lastVal l k with
         | some w => some w
         | Option.none => if k' = k then some v else Option.none) := fun l => rfl
    rw [unf, ih]
    cases hq : lastVal q k with
    | none =>
      rw [unf rest]
    | some w => rfl

theorem wvalFind_assocSet_self (d : List (String × WVal)) (k : String) (v : WVal) :
    wvalFind (assocSet d k v) k = some v := by
  induction d with
  | nil => simp [assocSet, wvalFind]
  | cons kv rest ih =>
    rcases kv with ⟨k₀, v₀⟩
    by_cases h : k₀ = k
    · simp [assocSet, h, wvalFind]
    · simp [assocSet, h, wvalFind, ih]

theorem wvalFind_assocSet_other (d : List (String × WVal)) (k k' : String) (v : WVal)
    (h : k' ≠ k) : wvalFind (assocSet d k v) k' = wvalFind d k' := by
  induction d with
  | nil => simp [assocSet, wvalFind, Ne.symm h]
  | cons kv rest ih =>
    rcases kv with ⟨k₀, v₀⟩
    by_cases h₀ : k₀ = k
    · subst h₀
      simp [assocSet, wvalFind, Ne.symm h]
    · by_cases h₁ : k₀ = k'
      · simp [assocSet, h₀, wvalFind, h₁, h]
      · simp [assocSet, h₀, wvalFind, h₁, h, ih]

theorem whoisFold_inv (lines : List String) :
    ∀ (ext : List (String × WVal)) (ns : List String) (p : List (String × String)),
      ns = nsValues p →
      wvalFind ext "name_servers" = (if ns = [] then Option.none else some (.l ns)) →
      (∀ k, k ≠ "name_servers" → wvalFind ext k = (lastVal p k).map WVal.s) →
      ((lines.foldl whoisStep (ext, ns)).2 = nsValues (p ++ lines.filterMap pairOfLine) ∧
       wvalFind (lines.foldl whoisStep (ext, ns)).1 "name_servers" =
         (if (lines.foldl whoisStep (ext, ns)).2 = [] then Option.none
          else some (.l (lines.foldl whoisStep (ext, ns)).2)) ∧
       (∀ k, k ≠ "name_servers" →
         wvalFind (lines.foldl whoisStep (ext, ns)).1 k =
           (lastVal (p ++ lines.filterMap pairOfLine) k).map WVal.s)) := by
  induction lines with
  | nil =>
    intro ext ns p h1 h2 h3
    simp only [List.foldl_nil, List.filterMap_nil, List.append_nil]
    exact ⟨h1, h2, h3⟩
  | cons line rest ih =>
    intro ext ns p h1 h2 h3
    simp only [List.foldl_cons, List.filterMap_cons]
    cases hp : pairOfLine line with
    | none =>
      simp only [whoisStep, hp]
      exact ih ext ns p h1 h2 h3
    | some pair =>
      rcases pair with ⟨mk, v⟩
      simp only [whoisStep, hp]
      by_cases hmk : mk = "name_servers"
      · subst hmk
        rw [if_pos rfl]
        have h1' : ns ++ [v] = nsValues (p ++ [("name_servers", v)]) := by
          rw [nsValues_append, ← h1]
          rfl
        have h2' : wvalFind (assocSet ext "name_servers" (.l (ns ++ [v]))) "name_servers" =
            (if (ns ++ [v]) = [] then Option.none else some (.l (ns ++ [v]))) := by
          rw [wvalFind_assocSet_self, if_neg (by simp)]
        have h3' : ∀ k, k ≠ "name_servers" →
            wvalFind (assocSet ext "name_servers" (.l (ns ++ [v]))) k =
              (lastVal (p ++ [("name_servers", v)]) k).map WVal.s := by
          intro k hk
          rw [wvalFind_assocSet_other _ _ _ _ hk, lastVal_append]
          have hsingle : lastVal [("name_servers", v)] k = Option.none := by
            simp [lastVal, Ne.symm hk]
          rw [hsingle]
          exact h3 k hk
        have := ih _ _ _ h1' h2' h3'
        rw [List.append_cons p ("name_servers", v) (rest.filterMap pairOfLine)]
        exact this
      · rw [if_neg hmk]
        have h1' : ns = nsValues (p ++ [(mk, v)]) := by
          rw [nsValues_append, ← h1]
          have : nsValues [(mk, v)] = [] := by simp [nsValues, hmk]
          rw [this, List.append_nil]
        have h2' : wvalFind (assocSet ext mk (.s v)) "name_servers" =
            (if ns = [] then Option.none else some (.l ns)) := by
          rw [wvalFind_assocSet_other _ _ _ _ (fun hh => hmk hh.symm)]
          exact h2
        have h3' : ∀ k, k ≠ "name_servers" →
            wvalFind (assocSet ext mk (.s v)) k =
              (lastVal (p ++ [(mk, v)]) k).map WVal.s := by
          intro k hk
          by_cases hkm : k = mk
          · subst hkm
            rw [wvalFind_assocSet_self, lastVal_append]
            have hsingle : lastVal [(k, v)] k = some v := by simp [lastVal]
            rw [hsingle]
            rfl
          · rw [wvalFind_assocSet_other _ _ _ _ hkm, lastVal_append]
            have hsingle : lastVal [(mk, v)] k = Option.none := by
              simp [lastVal, Ne.symm hkm]
            rw [hsingle]
            exact h3 k hk
        have := ih _ _ _ h1' h2' h3'
        rw [List.append_cons p (mk, v) (rest.filterMap pairOfLine)]
        exact this

/-- C9 (amended): the raw-text WHOIS parser matches the keys of
`key: value` lines case-insensitively against the fixed table (the key is
stripped and lowercased before the lookup, as `whoisMappedPairs` states);
lines mapping to `name_servers` accumulate their values into an ordered
list in input order; every other repeated mapped key is overwritten, the
last value winning (values do not accumulate). -/
theorem C9_amended (raw : String) :
    wvalFind (parseRawWhois raw) "name_servers" =
      (if nsValues (whoisMappedPairs raw) = [] then Option.none
       else some (.l (nsValues (whoisMappedPairs raw)))) ∧
    ∀ k, k ≠ "name_servers" → k ≠ "raw_text" →
      wvalFind (parseRawWhois raw) k = (lastVal (whoisMappedPairs raw) k).map WVal.s := by
  obtain ⟨hns, hfind, hlast⟩ :=
    whoisFold_inv (pySplitLines raw) [] [] [] rfl (by simp [wvalFind])
      (fun k _ => by simp [wvalFind, lastVal])
  unfold parseRawWhois whoisMappedPairs
  constructor
  · simp only [wvalFind]
    rw [if_neg (by decide), hfind, hns]
    simp
  · intro k hk hk2
    simp only [wvalFind]
    rw [if_neg (fun hh => hk2 hh.symm), hlast k hk]
    simp

/-- Witness for C9: two name-server lines in different key casings
accumulate in order, while two registrar lines keep only the last value. -/
theorem C9_witness :
    wvalFind (parseRawWhois "Name Server: a\nNAME SERVER: b\nRegistrar: x\nRegistrar: y")
      "name_servers" = some (.l ["a", "b"]) ∧
    wvalFind (parseRawWhois "Name Server: a\nNAME SERVER: b\nRegistrar: x\nRegistrar: y")
      "registrar" = some (.s "y") := by
  constructor
  · exact ((C9_amended "Name Server: a\nNAME SERVER: b\nRegistrar: x\nRegistrar: y").1).trans
      (by rfl)
  · exact ((C9_amended "Name Server: a\nNAME SERVER: b\nRegistrar: x\nRegistrar: y").2
      "registrar" (by decide) (by decide)).trans (by rfl)

end IntelSleuth
